import Mathlib

/-!
Verification of the PUNC particle-population container and cell-relocation
engine (src/punc/population.py) against its specification.

The embedding models real-valued quantities (positions, velocities, charges,
masses) as rationals.  External collaborators are parameters: the dolfin
cell-contains predicate and facet data live in a `MeshTopo` record, the
injector's point locator and the relocation function used by the update pass
are function parameters, and numpy's sqrt is an abstract function argument.
Python runtime failures (AssertionError, ZeroDivisionError, TypeError) are
modelled with Option/Except; the unbounded recursion of `relocate` is
embedded with explicit fuel, `none` meaning the walk is still running when
the fuel runs out.
-/

namespace PUNC

/-- A coordinate vector (a numpy array in the source). -/
abbrev Pt := List ℚ

/-- Python list item assignment `l[i] = f l[i]`; an out-of-range index
leaves the list unchanged (the theorems that rely on an in-range index
carry that bound as a hypothesis). -/
def modifyIdx : List α → Nat → (α → α) → List α
  | [], _, _ => []
  | a :: as, 0, f => f a :: as
  | a :: as, n + 1, f => a :: modifyIdx as n f

/-- The elements of `l` whose position, counting from `s`, satisfies `f`. -/
def idxFilter (s : Nat) : List α → (Nat → Bool) → List α
  | [], _ => []
  | a :: as, f => if f s then a :: idxFilter (s + 1) as f else idxFilter (s + 1) as f

/-- The positions, counting from `s`, of the elements of `l` satisfying `f`
(the `to_delete` index list collected by the update pass). -/
def idxsWhere (s : Nat) : List α → (α → Bool) → List Nat
  | [], _ => []
  | a :: as, f => if f a then s :: idxsWhere (s + 1) as f else idxsWhere (s + 1) as f

/-- Strictly descending list of indices. -/
def strictDesc : List Nat → Bool
  | [] => true
  | [_] => true
  | a :: b :: r => b < a && strictDesc (b :: r)

/-- One deletion step of the update pass: `cell.pop()` when the index is the
last one, otherwise `cell[particle_id] = cell.pop()` (swap-and-shrink).
Python's `pop` on an empty list raises; it is never reached by the source,
and the empty case here returns the empty list. -/
def swapRemove (l : List α) (i : Nat) : List α :=
  match l.getLast? with
  | none => []
  | some a => if i = l.length - 1 then l.dropLast else (l.set i a).dropLast

/-- The deletion loop of the update pass: swap-and-shrink at each index of
`ds` in turn (the source iterates `reversed(to_delete)`, so `ds` is the
descending list of indices). -/
def deleteDesc (ds : List Nat) (l : List α) : List α :=
  ds.foldl swapRemove l

/-- A particle record: position, velocity, charge, mass. -/
structure Particle where
  x : Pt
  v : Pt
  q : ℚ
  m : ℚ
deriving DecidableEq, Repr

/-- `Particle.__init__`: `assert q!=0 and m!=0`, then store the fields.
The failed assertion is `none`. -/
def Particle.init (x v : Pt) (q m : ℚ) : Option Particle :=
  if q ≠ 0 ∧ m ≠ 0 then some ⟨x, v, q, m⟩ else none

/-- The per-mesh data `init_localizer` precomputes, together with the
external geometric contains-test (dolfin `Cell.contains`). -/
structure MeshTopo where
  contains : Nat → Pt → Bool
  facet_adjacents : List (List Int)
  facet_normals : List (List Pt)
  facet_mids : List (List Pt)

/-- Componentwise difference `p - mid` of two coordinate vectors. -/
def vsub (a b : Pt) : Pt := List.zipWith (fun x y => x - y) a b

/-- Row entry of `np.sum(x*normals, axis=1)`: the scalar product. -/
def dot (a b : Pt) : ℚ := (List.zipWith (fun x y => x * y) a b).foldl (fun s t => s + t) 0

/-- `np.argmax` over the tail, carrying the best index and value; a later
value displaces the best only when strictly greater, so the first maximum
wins, as in numpy. -/
def argmaxGo : List ℚ → Nat → Nat → ℚ → Nat
  | [], _, bi, _ => bi
  | a :: as, i, bi, bv => if bv < a then argmaxGo as (i + 1) i a else argmaxGo as (i + 1) bi bv

/-- `np.argmax`; numpy raises on an empty array, which the source never
feeds it, and 0 is returned here in that case. -/
def argmax : List ℚ → Nat
  | [] => 0
  | a :: as => argmaxGo as 1 0 a

/-- `Population.relocate(p, cell_id)`: if the cell contains the point return
it, otherwise follow the facet with the maximal outward projection and
recurse, returning negative adjacency codes (boundary crossings) as is.
The source recursion carries no termination guard; it is embedded with
fuel, and `none` is the walk still running when the fuel is exhausted. -/
def relocate (M : MeshTopo) : Nat → Pt → Nat → Option Int
  | 0, _, _ => none
  | fuel + 1, p, cell_id =>
    if M.contains cell_id p then some (cell_id : Int)
    else
      let mids := M.facet_mids.getD cell_id []
      let normals := M.facet_normals.getD cell_id []
      let proj := List.zipWith (fun mid normal => dot (vsub p mid) normal) mids normals
      let projarg := argmax proj
      let new_cell_id := (M.facet_adjacents.getD cell_id []).getD projarg 0
      if 0 ≤ new_cell_id then relocate M fuel p new_cell_id.toNat
      else some new_cell_id

/-- A three-cell topology on which the relocation walk cycles: the
contains-test holds exactly for cell 2, while the single facets of cells 0
and 1 name each other as the adjacent cell, so a walk started in cell 0
alternates between cells 0 and 1 forever. -/
def cycleTopo : MeshTopo :=
  { contains := fun c _ => c == 2
    facet_adjacents := [[1], [0], [-1]]
    facet_normals := [[[1]], [[-1]], [[1]]]
    facet_mids := [[[0]], [[0]], [[0]]] }

/-- An absorbing body: its boundary code (`o._sub_domain`) and its charge
accumulator. -/
structure Obj where
  domain : Nat
  charge : ℚ
deriving DecidableEq, Repr

/-- One relocate call made by the update pass: the cell being iterated, the
particle it was called on, and the relocation result. -/
structure Ev where
  cell : Nat
  part : Particle
  res : Int
deriving DecidableEq, Repr

/-- The `object_ids` dict built at the top of `Population.update`: for a
boundary code, the index of the object whose `_sub_domain` equals it; a
later object overwrites an earlier one with the same code, as a Python dict
write does. -/
def lookupLast (ds : List Nat) (d : Nat) : Option Nat :=
  ((List.range ds.length).filter (fun o => ds.getD o 0 == d)).getLast?

/-- The multiset of particles whose logged relocation result was negative
(the boundary crossings of an update pass). -/
def negParts (evs : List Ev) : Multiset Particle :=
  ↑((evs.filter (fun e => decide (e.res < 0))).map Ev.part)

/-- The state threaded through the update pass: the per-cell particle
collections, the absorbing objects, and the log of relocate calls. -/
structure UpdSt where
  pop : List (List Particle)
  objs : List Obj
  evs : List Ev
deriving Repr

/-- The state of the inner loop over one cell: the update state plus the
`to_delete` index list and the running `particle_id`. -/
structure LoopSt where
  pop : List (List Particle)
  objs : List Obj
  evs : List Ev
  dels : List Nat
  j : Nat
deriving Repr

/-- The body of the inner loop of `Population.update`, for one
`(particle_id, particle)` pair of the cell `i` being iterated: call the
relocation function, and if the particle left the cell mark it for deletion
and either credit an absorbing object (negative result whose negation is a
registered code), drop it (negative unregistered result), or append it to
its destination cell. -/
def innerStep (reloc : Pt → Nat → Int) (oids : Nat → Option Nat) (i : Nat)
    (st : LoopSt) (particle : Particle) : LoopSt :=
  let new_cell_id := reloc particle.x i
  let st1 := { st with evs := st.evs ++ [⟨i, particle, new_cell_id⟩], j := st.j + 1 }
  if new_cell_id = (i : Int) then st1
  else
    let st2 := { st1 with dels := st1.dels ++ [st.j] }
    if new_cell_id < 0 then
      match oids (-new_cell_id).toNat with
      | some o =>
        { st2 with objs := modifyIdx st2.objs o (fun ob => { ob with charge := ob.charge + particle.q }) }
      | none => st2
    else
      { st2 with pop := modifyIdx st2.pop new_cell_id.toNat (fun c => c ++ [particle]) }

/-- One iteration of the outer loop of `Population.update`: run the inner
loop over the current content of cell `cell_id`, then delete the marked
particles in reverse index order.  During the inner loop the iterated
collection is not modified (appends go to other cells only), so it is read
once up front, as Python's iterator sees it. -/
def processCell (reloc : Pt → Nat → Int) (oids : Nat → Option Nat)
    (st : UpdSt) (cell_id : Nat) : UpdSt :=
  let cell := st.pop.getD cell_id []
  let r := cell.foldl (innerStep reloc oids cell_id) ⟨st.pop, st.objs, st.evs, [], 0⟩
  ⟨r.pop.set cell_id (deleteDesc r.dels.reverse cell), r.objs, r.evs⟩

/-- `Population.update(objects)`: build the `object_ids` dict once, then
iterate the cells in index order.  The relocation function is the
`self.relocate` call, a parameter here (the walk itself is `relocate`
above); the event log records every relocate call the pass makes. -/
def update (reloc : Pt → Nat → Int) (objects : List Obj)
    (pop : List (List Particle)) : UpdSt :=
  let oids := lookupLast (objects.map Obj.domain)
  (List.range pop.length).foldl (processCell reloc oids) ⟨pop, objects, []⟩

/-- `Population.num_of_particles`: `sum([len(x) for x in self])`. -/
def num_of_particles (pop : List (List Particle)) : Nat :=
  (pop.map List.length).sum

/-- The per-particle loop of `Population.add_particles` after the inputs
have been expanded to equal-length sequences: locate each particle and
append it to its home cell, silently dropping the ones that land in no
cell.  The `Particle` constructor runs only for located particles, and its
failed assertion aborts the call (`none`). -/
def add_particles_go (locate : Pt → Int) :
    List ((Pt × Pt) × ℚ × ℚ) → List (List Particle) → Option (List (List Particle))
  | [], pop => some pop
  | ((x, v), q, m) :: rest, pop =>
    let cell_id := locate x
    if 0 ≤ cell_id then
      match Particle.init x v q m with
      | some particle =>
        add_particles_go locate rest (modifyIdx pop cell_id.toNat (fun c => c ++ [particle]))
      | none => none
    else
      add_particles_go locate rest pop

/-- `Population.add_particles(xs, vs, qs, ms)` on per-particle sequences;
the zip truncates to the shortest input exactly as Python's `zip` does. -/
def add_particles (locate : Pt → Int) (pop : List (List Particle))
    (xs vs : List Pt) (qs ms : List ℚ) : Option (List (List Particle)) :=
  add_particles_go locate ((xs.zip vs).zip (qs.zip ms)) pop

/-- `Population.save_file`: one record per particle, cell by cell: the
position components, the velocity components, the charge, then the mass
(the content of one tab-separated line). -/
def save_file (pop : List (List Particle)) : List (List ℚ) :=
  pop.flatten.map (fun particle => particle.x ++ particle.v ++ [particle.q, particle.m])

/-- `Population.load_file`: split each line, slice the first `nDims` values
as position and the next `nDims` as velocity, read charge and mass, and add
the particle.  `getD` stands for Python sequence indexing; the round-trip
theorems only ever reach it on lines of length `2*nDims + 2`. -/
def load_file (nDims : Nat) (locate : Pt → Int) :
    List (List ℚ) → List (List Particle) → Option (List (List Particle))
  | [], pop => some pop
  | nums :: rest, pop =>
    let x := nums.take nDims
    let v := (nums.drop nDims).take nDims
    let q := nums.getD (2 * nDims) 0
    let m := nums.getD (2 * nDims + 1) 0
    match add_particles locate pop [x] [v] [q] [m] with
    | some pop1 => load_file nDims locate rest pop1
    | none => none

/-- The particle one snapshot line describes: the slicing performed by
`load_file` — first `nDims` values as position, next `nDims` as velocity,
then charge and mass. -/
def parse_particle (nDims : Nat) (nums : List ℚ) : Particle :=
  ⟨nums.take nDims, (nums.drop nDims).take nDims,
    nums.getD (2 * nDims) 0, nums.getD (2 * nDims + 1) 0⟩

/-- A `Specie` record: the raw physical parameters set by `Specie.__init__`
and the simulation-unit fields, `none` (Python `None`) until normalization. -/
structure Specie where
  charge_raw : ℚ
  mass_raw : ℚ
  v_thermal_raw : ℚ
  temperature_raw : Option ℚ
  v_drift_raw : ℚ
  num_total : Option Nat
  num_per_cell : Nat
  charge : Option ℚ
  mass : Option ℚ
  v_thermal : Option ℚ
  v_drift : Option ℚ
deriving DecidableEq, Repr

/-- The `specie` argument of `Specie.__init__`: the two keyword presets or
an explicit (charge, mass) pair; any other Python value fails the
constructor's isinstance assertion and cannot be represented here. -/
inductive SpecieKind
  | electron
  | proton
  | pair (charge mass : ℚ)
deriving DecidableEq, Repr

/-- The recognized keyword arguments of `Specie.__init__`; an absent field
is an omitted keyword. -/
structure SpecieOpts where
  v_drift : Option ℚ
  v_thermal : Option ℚ
  temperature : Option ℚ
  num_per_cell : Option Nat
  num_total : Option Nat
deriving DecidableEq, Repr

/-- `Specie.__init__`: the presets electron (charge -1, mass 1) and proton
(charge 1, mass 1836.15267389), or the explicit pair; defaults 0 for the
raw velocities, `None` for temperature and `num_total`, 16 for
`num_per_cell`.  No check of any kind is made on the charge or mass
values. -/
def Specie.init (specie : SpecieKind) (kwargs : SpecieOpts) : Specie :=
  { charge_raw :=
      match specie with
      | .electron => -1
      | .proton => 1
      | .pair c _ => c
    mass_raw :=
      match specie with
      | .electron => 1
      | .proton => (183615267389 : ℚ) / 100000000000
      | .pair _ m => m
    v_thermal_raw := kwargs.v_thermal.getD 0
    temperature_raw := kwargs.temperature
    v_drift_raw := kwargs.v_drift.getD 0
    num_total := kwargs.num_total
    num_per_cell := kwargs.num_per_cell.getD 16
    charge := none
    mass := none
    v_thermal := none
    v_drift := none }

/-- The `Species` registry: mesh volume and cell count captured at
construction, the list of registered species, and the scalar weight.  The
weight attribute does not exist in Python before the first normalization;
its initial value here is irrelevant to every theorem. -/
structure SpeciesState where
  volume : ℚ
  num_cells : Nat
  species : List Specie
  weight : ℚ
deriving DecidableEq, Repr

/-- `Species.normalize_plasma_params(s)` where `s` is the last appended
specie (`self[-1]`): default `num_total`, compute the registry weight from
the reference specie `self[0]`, scale charge and mass, then derive the
thermal and drift velocities.  Python runtime errors are `Except.error`:
the failed temperature assertion, ZeroDivisionError on each zero divisor,
TypeError on arithmetic with `None`.  numpy's sqrt is the abstract
`sqrtFn`. -/
def normalize_plasma_params (sqrtFn : ℚ → ℚ) (st : SpeciesState) :
    Except String SpeciesState :=
  match st.species.getLast? with
  | none => .error "IndexError"
  | some s0 =>
    let s1 := { s0 with num_total := some (s0.num_total.getD (s0.num_per_cell * st.num_cells)) }
    let species1 := st.species.dropLast ++ [s1]
    match species1.head? with
    | none => .error "IndexError"
    | some ref =>
      match ref.num_total with
      | none => .error "TypeError"
      | some ref_num_total =>
        if ref_num_total = 0 then .error "ZeroDivisionError"
        else if ref.charge_raw = 0 then .error "ZeroDivisionError"
        else
          let weight := st.volume / (ref_num_total : ℚ) * (ref.mass_raw / ref.charge_raw ^ 2)
          let s2 := { s1 with charge := some (weight * s1.charge_raw),
                              mass := some (weight * s1.mass_raw) }
          let species2 := species1.dropLast ++ [s2]
          let vth : Except String (List Specie) :=
            match ref.temperature_raw with
            | some ref_temperature =>
              match s2.temperature_raw with
              | none => .error "Specify temperature for all or none species"
              | some _ =>
                if ref_temperature = 0 then .error "ZeroDivisionError"
                else
                  (modifyIdx species2 0 (fun r => { r with v_thermal := some 1 })).mapM
                    (fun t =>
                      match t.temperature_raw with
                      | none => .error "TypeError"
                      | some temperature =>
                        if t.mass_raw = 0 then .error "ZeroDivisionError"
                        else
                          let vt := 1 * sqrtFn (temperature / ref_temperature * (ref.mass_raw / t.mass_raw))
                          .ok { t with v_thermal := some vt })
            | none =>
              if s2.v_thermal_raw = 0 then
                .ok (species2.dropLast ++ [{ s2 with v_thermal := some 0 }])
              else if ref.v_thermal_raw = 0 then .error "ZeroDivisionError"
              else .ok (species2.dropLast ++
                [{ s2 with v_thermal := some (s2.v_thermal_raw / ref.v_thermal_raw) }])
          match vth with
          | .error e => .error e
          | .ok species4 =>
            match species4.getLast? with
            | none => .error "IndexError"
            | some s4 =>
              if s4.v_drift_raw = 0 then
                let species5 := species4.dropLast ++ [{ s4 with v_drift := some 0 }]
                .ok { st with species := species5, weight := weight }
              else if ref.v_thermal_raw = 0 then .error "ZeroDivisionError"
              else
                let s5 := { s4 with v_drift := some (s4.v_drift_raw / ref.v_thermal_raw) }
                let species5 := species4.dropLast ++ [s5]
                .ok { st with species := species5, weight := weight }

/-- `Species.append_specie` under the plasma params normalization: build the
`Specie`, append it, normalize.  This is species registration. -/
def append_specie (sqrtFn : ℚ → ℚ) (st : SpeciesState) (specie : SpecieKind)
    (kwargs : SpecieOpts) : Except String SpeciesState :=
  normalize_plasma_params sqrtFn
    { st with species := st.species ++ [Specie.init specie kwargs] }

/-! ### Properties of the swap-and-shrink deletion -/

theorem strictDesc_tail {a : Nat} {r : List Nat} (h : strictDesc (a :: r) = true) :
    strictDesc r = true := by
  cases r with
  | nil => rfl
  | cons b r' => exact (Bool.and_eq_true_iff.mp h).2

theorem strictDesc_lt_head {a : Nat} {r : List Nat} (h : strictDesc (a :: r) = true) :
    ∀ x ∈ r, x < a := by
  induction r generalizing a with
  | nil => intro x hx; cases hx
  | cons b r' ih =>
    intro x hx
    have hba : b < a := by simpa using (Bool.and_eq_true_iff.mp h).1
    rcases List.mem_cons.mp hx with rfl | hx'
    · exact hba
    · exact Nat.lt_trans (ih (Bool.and_eq_true_iff.mp h).2 x hx') hba

theorem swapRemove_concat_lt (l : List α) (b : α) (i : Nat) (h : i < l.length) :
    swapRemove (l ++ [b]) i = l.set i b := by
  have hne : ¬ i = (l ++ [b]).length - 1 := by simp; omega
  simp only [swapRemove, List.getLast?_concat]
  rw [if_neg hne, List.set_append_left i b h, List.dropLast_concat]

theorem swapRemove_concat_last (l : List α) (b : α) :
    swapRemove (l ++ [b]) l.length = l := by
  have he : l.length = (l ++ [b]).length - 1 := by simp
  simp only [swapRemove, List.getLast?_concat]
  rw [if_pos he, List.dropLast_concat]

theorem swapRemove_perm (l : List α) (i : Nat) (h : i < l.length) :
    List.Perm (swapRemove l i) (l.eraseIdx i) := by
  rcases List.eq_nil_or_concat l with rfl | ⟨L, b, rfl⟩
  · cases h
  · rw [List.concat_eq_append] at *
    rw [List.eraseIdx_eq_take_drop_succ]
    have hlen : (L ++ [b]).length = L.length + 1 := by simp
    rcases Nat.lt_or_ge i L.length with hi | hi
    · rw [swapRemove_concat_lt L b i hi]
      rw [List.take_append_of_le_length (Nat.le_of_lt hi),
          List.drop_append_of_le_length hi,
          List.set_eq_take_append_cons_drop, if_pos hi]
      refine List.Perm.append (List.Perm.refl _) ?_
      exact (List.perm_append_singleton b (L.drop (i + 1))).symm
    · have hie : i = L.length := by omega
      subst hie
      rw [swapRemove_concat_last L b]
      rw [List.take_left]
      have : (L ++ [b]).drop (L.length + 1) = [] := by simp
      rw [this, List.append_nil]

theorem swapRemove_length (l : List α) (i : Nat) (h : i < l.length) :
    (swapRemove l i).length = l.length - 1 := by
  rw [(swapRemove_perm l i h).length_eq, List.length_eraseIdx]
  simp [h]

theorem swapRemove_take (l : List α) (i j : Nat) (h : i < l.length) (hj : j ≤ i) :
    (swapRemove l i).take j = l.take j := by
  rcases List.eq_nil_or_concat l with rfl | ⟨L, b, rfl⟩
  · cases h
  · rw [List.concat_eq_append] at *
    have hlen : (L ++ [b]).length = L.length + 1 := by simp
    rcases Nat.lt_or_ge i L.length with hi | hi
    · rw [swapRemove_concat_lt L b i hi]
      rw [List.set_eq_take_append_cons_drop, if_pos hi]
      have h1 : (L.take i ++ b :: L.drop (i + 1)).take j = (L.take i).take j := by
        apply List.take_append_of_le_length
        rw [List.length_take]; omega
      have h2 : (L ++ [b]).take j = L.take j := by
        apply List.take_append_of_le_length; omega
      rw [h1, h2, List.take_take, min_eq_left hj]
    · have hie : i = L.length := by omega
      subst hie
      rw [swapRemove_concat_last L b]
      rw [List.take_append_of_le_length hj]

theorem eraseIdx_multiset (l : List α) (i : Nat) (h : i < l.length) :
    (↑(l.eraseIdx i) : Multiset α) + {l.get ⟨i, h⟩} = ↑l := by
  have decomp : l = l.take i ++ l.get ⟨i, h⟩ :: l.drop (i + 1) := by
    conv_lhs => rw [← List.take_append_drop i l]
    rw [List.drop_eq_getElem_cons h]
    simp [List.get_eq_getElem]
  rw [List.eraseIdx_eq_take_drop_succ]
  conv_rhs => rw [decomp]
  simp only [← Multiset.coe_add, ← Multiset.cons_coe]
  rw [← Multiset.singleton_add]
  abel

theorem swapRemove_multiset (l : List α) (i : Nat) (h : i < l.length) :
    (↑(swapRemove l i) : Multiset α) + {l.get ⟨i, h⟩} = ↑l := by
  rw [Multiset.coe_eq_coe.mpr (swapRemove_perm l i h)]
  exact eraseIdx_multiset l i h

theorem deleteDesc_cons (d : Nat) (ds : List Nat) (l : List α) :
    deleteDesc (d :: ds) l = deleteDesc ds (swapRemove l d) := rfl

theorem deleteDesc_congr [DecidableEq α] :
    ∀ (ds : List Nat) (l₁ l₂ : List α) (b : Nat),
      (∀ d ∈ ds, d < b) → strictDesc ds = true → b ≤ l₁.length →
      l₁.length = l₂.length → l₁.take b = l₂.take b → (↑l₁ : Multiset α) = ↑l₂ →
      (↑(deleteDesc ds l₁) : Multiset α) = ↑(deleteDesc ds l₂)
  | [], l₁, l₂, b, _, _, _, _, _, hm => hm
  | d :: ds, l₁, l₂, b, hb, hdesc, hbl, hlen, htake, hm => by
    rw [deleteDesc_cons, deleteDesc_cons]
    have hd : d < b := hb d (List.mem_cons_self d ds)
    have hd1 : d < l₁.length := Nat.lt_of_lt_of_le hd hbl
    have hd2 : d < l₂.length := by omega
    have hget : l₁.get ⟨d, hd1⟩ = l₂.get ⟨d, hd2⟩ := by
      have e1 : (l₁.take b)[d]? = (l₂.take b)[d]? := by rw [htake]
      rw [List.getElem?_take, if_pos hd, List.getElem?_take, if_pos hd,
        List.getElem?_eq_getElem hd1, List.getElem?_eq_getElem hd2] at e1
      simpa [List.get_eq_getElem] using e1
    refine deleteDesc_congr ds (swapRemove l₁ d) (swapRemove l₂ d) d
      (strictDesc_lt_head hdesc) (strictDesc_tail hdesc) ?_ ?_ ?_ ?_
    · rw [swapRemove_length l₁ d hd1]; omega
    · rw [swapRemove_length l₁ d hd1, swapRemove_length l₂ d hd2]; omega
    · rw [swapRemove_take l₁ d d hd1 (Nat.le_refl d), swapRemove_take l₂ d d hd2 (Nat.le_refl d)]
      have e1 : l₁.take d = (l₁.take b).take d := by rw [List.take_take, min_eq_left (Nat.le_of_lt hd)]
      have e2 : l₂.take d = (l₂.take b).take d := by rw [List.take_take, min_eq_left (Nat.le_of_lt hd)]
      rw [e1, e2, htake]
    · have m1 := swapRemove_multiset l₁ d hd1
      have m2 := swapRemove_multiset l₂ d hd2
      rw [hget] at m1
      have : (↑(swapRemove l₁ d) : Multiset α) + {l₂.get ⟨d, hd2⟩} =
          (↑(swapRemove l₂ d) : Multiset α) + {l₂.get ⟨d, hd2⟩} := by rw [m1, m2, hm]
      exact add_right_cancel this

/-! ### The index filter view of the deletion loop -/

theorem idxFilter_congr : ∀ (l : List α) (s : Nat) (f g : Nat → Bool),
    (∀ k, s ≤ k → k < s + l.length → f k = g k) → idxFilter s l f = idxFilter s l g
  | [], _, _, _, _ => rfl
  | a :: as, s, f, g, h => by
    have hs : f s = g s := h s (Nat.le_refl s) (by simp)
    have ih := idxFilter_congr as (s + 1) f g
      (fun k hk1 hk2 => h k (by omega) (by simp at hk2 ⊢; omega))
    simp only [idxFilter, hs, ih]

theorem idxFilter_of_true : ∀ (l : List α) (s : Nat) (f : Nat → Bool),
    (∀ k, f k = true) → idxFilter s l f = l
  | [], _, _, _ => rfl
  | a :: as, s, f, h => by
    simp only [idxFilter, h s, if_true]
    rw [idxFilter_of_true as (s + 1) f h]

theorem idxFilter_shift : ∀ (l : List α) (s : Nat) (f g : Nat → Bool),
    (∀ k, s ≤ k → g k = f (k + 1)) → idxFilter s l g = idxFilter (s + 1) l f
  | [], _, _, _, _ => rfl
  | a :: as, s, f, g, h => by
    have hs : g s = f (s + 1) := h s (Nat.le_refl s)
    have ih := idxFilter_shift as (s + 1) f g (fun k hk => h k (by omega))
    simp only [idxFilter, hs, ih]

theorem idxFilter_eraseIdx : ∀ (l : List α) (d s : Nat) (f g : Nat → Bool),
    d < l.length →
    (∀ k, k < s + d → g k = f k) → f (s + d) = false →
    (∀ k, s + d ≤ k → g k = f (k + 1)) →
    idxFilter s (l.eraseIdx d) g = idxFilter s l f
  | [], d, s, f, g, hd, _, _, _ => by cases hd
  | a :: as, 0, s, f, g, hd, hlt, hf, hge => by
    have hfs : f s = false := by simpa using hf
    simp only [List.eraseIdx, idxFilter, hfs, if_false]
    exact idxFilter_shift as s f g (fun k hk => hge k (by omega))
  | a :: as, d + 1, s, f, g, hd, hlt, hf, hge => by
    have hgs : g s = f s := hlt s (by omega)
    have ih := idxFilter_eraseIdx as d (s + 1) f g (by simpa using hd)
      (fun k hk => hlt k (by omega)) (by simpa [Nat.add_assoc, Nat.add_comm, Nat.add_left_comm] using hf)
      (fun k hk => hge k (by omega))
    simp only [List.eraseIdx, idxFilter, hgs, ih]

theorem deleteDesc_multiset [DecidableEq α] :
    ∀ (ds : List Nat) (l : List α), strictDesc ds = true → (∀ d ∈ ds, d < l.length) →
      (↑(deleteDesc ds l) : Multiset α) = ↑(idxFilter 0 l (fun i => decide (i ∉ ds)))
  | [], l, _, _ => by
    rw [idxFilter_of_true l 0 _ (fun k => by simp)]
    rfl
  | d :: ds, l, hdesc, hb => by
    have hd : d < l.length := hb d (List.mem_cons_self d ds)
    have hlt := strictDesc_lt_head hdesc
    rw [deleteDesc_cons]
    have step1 : (↑(deleteDesc ds (swapRemove l d)) : Multiset α) =
        ↑(deleteDesc ds (l.eraseIdx d)) := by
      refine deleteDesc_congr ds (swapRemove l d) (l.eraseIdx d) d hlt
        (strictDesc_tail hdesc) ?_ ?_ ?_ ?_
      · rw [swapRemove_length l d hd]; omega
      · rw [swapRemove_length l d hd, List.length_eraseIdx]; simp [hd]
      · rw [swapRemove_take l d d hd (Nat.le_refl d), List.eraseIdx_eq_take_drop_succ]
        rw [List.take_append_of_le_length (by rw [List.length_take]; omega)]
        rw [List.take_take, min_self]
      · have m1 := swapRemove_multiset l d hd
        have m2 := eraseIdx_multiset l d hd
        have : (↑(swapRemove l d) : Multiset α) + {l.get ⟨d, hd⟩} =
            (↑(l.eraseIdx d) : Multiset α) + {l.get ⟨d, hd⟩} := by rw [m1, m2]
        exact add_right_cancel this
    have step2 : (↑(deleteDesc ds (l.eraseIdx d)) : Multiset α) =
        ↑(idxFilter 0 (l.eraseIdx d) (fun i => decide (i ∉ ds))) := by
      refine deleteDesc_multiset ds (l.eraseIdx d) (strictDesc_tail hdesc) ?_
      intro x hx
      have hxd := hlt x hx
      rw [List.length_eraseIdx]
      simp [hd]; omega
    have step3 : idxFilter 0 (l.eraseIdx d) (fun i => decide (i ∉ ds)) =
        idxFilter 0 l (fun i => decide (i ∉ d :: ds)) := by
      refine idxFilter_eraseIdx l d 0 _ _ hd ?_ ?_ ?_
      · intro k hk
        simp only [Nat.zero_add] at hk
        have : ¬ k = d := by omega
        simp [this]
      · simp
      · intro k hk
        simp only [Nat.zero_add] at hk
        have h1 : ¬ k + 1 = d := by omega
        have h2 : k ∉ ds := fun hm => by have := hlt k hm; omega
        have h3 : k + 1 ∉ ds := fun hm => by have := hlt (k + 1) hm; omega
        simp [h1, h2, h3]
    rw [step1, step2, step3]

/-- C5: for every list of particles and every subset S of its valid indices
(given as the strictly descending list in which the deletion loop visits
them), deleting the elements at the indices in S in descending index order
by swap-and-shrink, as in the deletion loop of `Population.update`, leaves
exactly the multiset of elements whose original indices are not in S. -/
theorem claim_C5_deletion (l : List Particle) (S : List Nat)
    (hdesc : strictDesc S = true) (hvalid : ∀ d ∈ S, d < l.length) :
    (↑(deleteDesc S l) : Multiset Particle) =
      ↑(idxFilter 0 l (fun i => decide (i ∉ S))) :=
  deleteDesc_multiset S l hdesc hvalid

theorem claim_C5_deletion_witness :
    strictDesc [2, 0] = true ∧
    (∀ d ∈ [2, 0], d < [Particle.mk [0] [0] 1 1, Particle.mk [1] [0] 2 1,
      Particle.mk [2] [0] 3 1, Particle.mk [3] [0] 4 1].length) ∧
    (↑(deleteDesc [2, 0] [Particle.mk [0] [0] 1 1, Particle.mk [1] [0] 2 1,
        Particle.mk [2] [0] 3 1, Particle.mk [3] [0] 4 1]) : Multiset Particle) =
      ↑(idxFilter 0 [Particle.mk [0] [0] 1 1, Particle.mk [1] [0] 2 1,
        Particle.mk [2] [0] 3 1, Particle.mk [3] [0] 4 1] (fun i => decide (i ∉ [2, 0]))) :=
  ⟨by decide, by decide, claim_C5_deletion _ _ (by decide) (by decide)⟩

/-! ### Elementary facts about the list helpers -/

theorem modifyIdx_length (f : α → α) : ∀ (l : List α) (i : Nat),
    (modifyIdx l i f).length = l.length
  | [], _ => rfl
  | _ :: _, 0 => rfl
  | _ :: as, n + 1 => by simp [modifyIdx, modifyIdx_length f as n]

theorem modifyIdx_getD_ne (f : α → α) (d : α) :
    ∀ (l : List α) (i k : Nat), i ≠ k → (modifyIdx l i f).getD k d = l.getD k d
  | [], _, _, _ => rfl
  | a :: as, 0, 0, h => absurd rfl h
  | a :: as, 0, k + 1, _ => by simp [modifyIdx]
  | a :: as, n + 1, 0, _ => by simp [modifyIdx]
  | a :: as, n + 1, k + 1, h => by
    simp only [modifyIdx, List.getD_cons_succ]
    exact modifyIdx_getD_ne f d as n k (fun he => h (by omega))

theorem modifyIdx_getD_self (f : α → α) (d : α) :
    ∀ (l : List α) (i : Nat), i < l.length → (modifyIdx l i f).getD i d = f (l.getD i d)
  | [], i, h => by cases h
  | a :: as, 0, _ => by simp [modifyIdx]
  | a :: as, n + 1, h => by
    simp only [modifyIdx, List.getD_cons_succ]
    exact modifyIdx_getD_self f d as n (by simpa using h)

theorem modifyIdx_map (f : α → α) (g : α → β) (g' : β → β)
    (hc : ∀ a, g (f a) = g' (g a)) :
    ∀ (l : List α) (i : Nat), (modifyIdx l i f).map g = modifyIdx (l.map g) i g'
  | [], _ => rfl
  | a :: as, 0 => by simp [modifyIdx, hc]
  | a :: as, n + 1 => by simp [modifyIdx, modifyIdx_map f g g' hc as n]

theorem modifyIdx_flatten_append (p : β) :
    ∀ (pop : List (List β)) (k : Nat), k < pop.length →
      (↑(modifyIdx pop k (fun c => c ++ [p])).flatten : Multiset β) = ↑pop.flatten + {p}
  | [], k, h => by cases h
  | c :: cs, 0, _ => by
    simp only [modifyIdx, List.flatten_cons]
    simp only [← Multiset.coe_add, ← Multiset.coe_singleton]
    abel
  | c :: cs, k + 1, h => by
    simp only [modifyIdx, List.flatten_cons]
    simp only [← Multiset.coe_add, ← Multiset.coe_singleton]
    rw [modifyIdx_flatten_append p cs k (by simpa using h)]
    simp only [← Multiset.coe_singleton]
    abel

theorem set_flatten (x : List β) :
    ∀ (pop : List (List β)) (i : Nat), i < pop.length →
      (↑(pop.set i x).flatten : Multiset β) + ↑(pop.getD i []) = ↑pop.flatten + ↑x
  | [], i, h => by cases h
  | c :: cs, 0, _ => by
    simp only [List.set_cons_zero, List.flatten_cons, List.getD_cons_zero]
    simp only [← Multiset.coe_add]
    abel
  | c :: cs, i + 1, h => by
    simp only [List.set_cons_succ, List.flatten_cons, List.getD_cons_succ]
    simp only [← Multiset.coe_add]
    have ih := set_flatten x cs i (by simpa using h)
    rw [add_assoc, add_assoc, ih]

theorem set_getD_self (d : α) : ∀ (l : List α) (i : Nat), i < l.length →
    l.set i (l.getD i d) = l
  | [], i, h => by cases h
  | a :: as, 0, _ => by simp
  | a :: as, i + 1, h => by
    simp only [List.getD_cons_succ, List.set_cons_succ]
    rw [set_getD_self d as i (by simpa using h)]

theorem getD_set_ne (d : α) (x : α) (l : List α) (i k : Nat) (h : i ≠ k) :
    (l.set i x).getD k d = l.getD k d := by
  rw [List.getD_eq_getElem?_getD, List.getD_eq_getElem?_getD, List.getElem?_set_ne h]

theorem num_of_particles_card (pop : List (List Particle)) :
    num_of_particles pop = Multiset.card (↑pop.flatten : Multiset Particle) := by
  rw [Multiset.coe_card, List.length_flatten]
  rfl

theorem mem_of_getLast?_eq_some {a : α} : ∀ {l : List α}, l.getLast? = some a → a ∈ l
  | [], h => by cases h
  | [b], h => by
    simp [List.getLast?_singleton] at h
    simp [h]
  | b :: c :: r, h => by
    rw [List.getLast?_cons_cons] at h
    exact List.mem_cons_of_mem b (mem_of_getLast?_eq_some h)

theorem lookupLast_lt_length (ds : List Nat) (d : Nat) (o : Nat)
    (h : lookupLast ds d = some o) : o < ds.length := by
  have hmem : o ∈ (List.range ds.length).filter (fun t => ds.getD t 0 == d) :=
    mem_of_getLast?_eq_some h
  exact List.mem_range.mp (List.mem_of_mem_filter hmem)

/-! ### The inner loop of the update pass, one step at a time -/

section UpdatePass

variable (reloc : Pt → Nat → Int) (oids : Nat → Option Nat) (i : Nat)

theorem innerStep_stay (st : LoopSt) (a : Particle) (h : reloc a.x i = (i : Int)) :
    innerStep reloc oids i st a =
      ⟨st.pop, st.objs, st.evs ++ [⟨i, a, reloc a.x i⟩], st.dels, st.j + 1⟩ := by
  simp [innerStep, h]

theorem innerStep_move (st : LoopSt) (a : Particle) (h1 : ¬ reloc a.x i = (i : Int))
    (h2 : ¬ reloc a.x i < 0) :
    innerStep reloc oids i st a =
      ⟨modifyIdx st.pop (reloc a.x i).toNat (fun c => c ++ [a]), st.objs,
        st.evs ++ [⟨i, a, reloc a.x i⟩], st.dels ++ [st.j], st.j + 1⟩ := by
  simp [innerStep, h1, h2]

theorem innerStep_absorb (st : LoopSt) (a : Particle) (o : Nat)
    (h1 : ¬ reloc a.x i = (i : Int)) (h2 : reloc a.x i < 0)
    (h3 : oids (-(reloc a.x i)).toNat = some o) :
    innerStep reloc oids i st a =
      ⟨st.pop, modifyIdx st.objs o (fun ob => { ob with charge := ob.charge + a.q }),
        st.evs ++ [⟨i, a, reloc a.x i⟩], st.dels ++ [st.j], st.j + 1⟩ := by
  simp [innerStep, h1, h2, h3]

theorem innerStep_lost (st : LoopSt) (a : Particle)
    (h1 : ¬ reloc a.x i = (i : Int)) (h2 : reloc a.x i < 0)
    (h3 : oids (-(reloc a.x i)).toNat = none) :
    innerStep reloc oids i st a =
      ⟨st.pop, st.objs, st.evs ++ [⟨i, a, reloc a.x i⟩], st.dels ++ [st.j], st.j + 1⟩ := by
  simp [innerStep, h1, h2, h3]

theorem innerStep_evs (st : LoopSt) (a : Particle) :
    (innerStep reloc oids i st a).evs = st.evs ++ [⟨i, a, reloc a.x i⟩] := by
  by_cases h1 : reloc a.x i = (i : Int)
  · rw [innerStep_stay reloc oids i st a h1]
  · by_cases h2 : reloc a.x i < 0
    · cases h3 : oids (-(reloc a.x i)).toNat with
      | some o => rw [innerStep_absorb reloc oids i st a o h1 h2 h3]
      | none => rw [innerStep_lost reloc oids i st a h1 h2 h3]
    · rw [innerStep_move reloc oids i st a h1 h2]

theorem innerStep_j (st : LoopSt) (a : Particle) :
    (innerStep reloc oids i st a).j = st.j + 1 := by
  by_cases h1 : reloc a.x i = (i : Int)
  · rw [innerStep_stay reloc oids i st a h1]
  · by_cases h2 : reloc a.x i < 0
    · cases h3 : oids (-(reloc a.x i)).toNat with
      | some o => rw [innerStep_absorb reloc oids i st a o h1 h2 h3]
      | none => rw [innerStep_lost reloc oids i st a h1 h2 h3]
    · rw [innerStep_move reloc oids i st a h1 h2]

theorem innerStep_dels (st : LoopSt) (a : Particle) :
    (innerStep reloc oids i st a).dels =
      st.dels ++ (if reloc a.x i = (i : Int) then [] else [st.j]) := by
  by_cases h1 : reloc a.x i = (i : Int)
  · rw [innerStep_stay reloc oids i st a h1, if_pos h1, List.append_nil]
  · rw [if_neg h1]
    by_cases h2 : reloc a.x i < 0
    · cases h3 : oids (-(reloc a.x i)).toNat with
      | some o => rw [innerStep_absorb reloc oids i st a o h1 h2 h3]
      | none => rw [innerStep_lost reloc oids i st a h1 h2 h3]
    · rw [innerStep_move reloc oids i st a h1 h2]

theorem innerStep_pop_length (st : LoopSt) (a : Particle) :
    (innerStep reloc oids i st a).pop.length = st.pop.length := by
  by_cases h1 : reloc a.x i = (i : Int)
  · rw [innerStep_stay reloc oids i st a h1]
  · by_cases h2 : reloc a.x i < 0
    · cases h3 : oids (-(reloc a.x i)).toNat with
      | some o => rw [innerStep_absorb reloc oids i st a o h1 h2 h3]
      | none => rw [innerStep_lost reloc oids i st a h1 h2 h3]
    · rw [innerStep_move reloc oids i st a h1 h2]
      exact modifyIdx_length _ st.pop _

theorem innerStep_objs_length (st : LoopSt) (a : Particle) :
    (innerStep reloc oids i st a).objs.length = st.objs.length := by
  by_cases h1 : reloc a.x i = (i : Int)
  · rw [innerStep_stay reloc oids i st a h1]
  · by_cases h2 : reloc a.x i < 0
    · cases h3 : oids (-(reloc a.x i)).toNat with
      | some o =>
        rw [innerStep_absorb reloc oids i st a o h1 h2 h3]
        exact modifyIdx_length _ st.objs _
      | none => rw [innerStep_lost reloc oids i st a h1 h2 h3]
    · rw [innerStep_move reloc oids i st a h1 h2]

theorem innerStep_pop_getD_i (st : LoopSt) (a : Particle) :
    (innerStep reloc oids i st a).pop.getD i [] = st.pop.getD i [] := by
  by_cases h1 : reloc a.x i = (i : Int)
  · rw [innerStep_stay reloc oids i st a h1]
  · by_cases h2 : reloc a.x i < 0
    · cases h3 : oids (-(reloc a.x i)).toNat with
      | some o => rw [innerStep_absorb reloc oids i st a o h1 h2 h3]
      | none => rw [innerStep_lost reloc oids i st a h1 h2 h3]
    · rw [innerStep_move reloc oids i st a h1 h2]
      refine modifyIdx_getD_ne _ _ st.pop _ i (fun he => h1 ?_)
      omega

theorem innerStep_pop_extends (st : LoopSt) (a : Particle) (k : Nat) :
    ∃ suf, (innerStep reloc oids i st a).pop.getD k [] = st.pop.getD k [] ++ suf := by
  by_cases h1 : reloc a.x i = (i : Int)
  · exact ⟨[], by rw [innerStep_stay reloc oids i st a h1, List.append_nil]⟩
  · by_cases h2 : reloc a.x i < 0
    · cases h3 : oids (-(reloc a.x i)).toNat with
      | some o =>
        exact ⟨[], by rw [innerStep_absorb reloc oids i st a o h1 h2 h3, List.append_nil]⟩
      | none =>
        exact ⟨[], by rw [innerStep_lost reloc oids i st a h1 h2 h3, List.append_nil]⟩
    · rw [innerStep_move reloc oids i st a h1 h2]
      by_cases hk : (reloc a.x i).toNat = k
      · subst hk
        by_cases hr : (reloc a.x i).toNat < st.pop.length
        · exact ⟨[a], modifyIdx_getD_self _ [] st.pop _ hr⟩
        · refine ⟨[], ?_⟩
          rw [List.append_nil, List.getD_eq_getElem?_getD, List.getD_eq_getElem?_getD]
          have hr1 : st.pop.length ≤ (reloc a.x i).toNat := by omega
          have hr2 : (modifyIdx st.pop (reloc a.x i).toNat (fun c => c ++ [a])).length ≤
              (reloc a.x i).toNat := by rw [modifyIdx_length]; omega
          rw [List.getElem?_eq_none hr1, List.getElem?_eq_none hr2]
      · exact ⟨[], by rw [List.append_nil]; exact modifyIdx_getD_ne _ _ st.pop _ k hk⟩

theorem innerStep_flatten (st : LoopSt) (a : Particle)
    (hcod : reloc a.x i < (st.pop.length : Int)) :
    (↑(innerStep reloc oids i st a).pop.flatten : Multiset Particle) =
      ↑st.pop.flatten +
        (if 0 ≤ reloc a.x i ∧ ¬ reloc a.x i = (i : Int) then {a} else 0) := by
  by_cases h1 : reloc a.x i = (i : Int)
  · rw [innerStep_stay reloc oids i st a h1, if_neg (by tauto), add_zero]
  · by_cases h2 : reloc a.x i < 0
    · have : ¬ (0 ≤ reloc a.x i ∧ ¬ reloc a.x i = (i : Int)) := by omega
      cases h3 : oids (-(reloc a.x i)).toNat with
      | some o => rw [innerStep_absorb reloc oids i st a o h1 h2 h3, if_neg this, add_zero]
      | none => rw [innerStep_lost reloc oids i st a h1 h2 h3, if_neg this, add_zero]
    · rw [innerStep_move reloc oids i st a h1 h2, if_pos (by constructor <;> omega)]
      refine modifyIdx_flatten_append a st.pop (reloc a.x i).toNat ?_
      omega

theorem innerFold_evs (st : LoopSt) :
    ∀ (l : List Particle),
      (l.foldl (innerStep reloc oids i) st).evs =
        st.evs ++ l.map (fun p => ⟨i, p, reloc p.x i⟩) := by
  intro l
  induction l generalizing st with
  | nil => simp
  | cons a l ih =>
    rw [List.foldl_cons, ih, innerStep_evs, List.map_cons, List.append_assoc,
      List.singleton_append]

theorem innerFold_j (st : LoopSt) :
    ∀ (l : List Particle), (l.foldl (innerStep reloc oids i) st).j = st.j + l.length := by
  intro l
  induction l generalizing st with
  | nil => simp
  | cons a l ih =>
    rw [List.foldl_cons, ih, innerStep_j, List.length_cons]
    omega

theorem innerFold_dels (st : LoopSt) :
    ∀ (l : List Particle),
      (l.foldl (innerStep reloc oids i) st).dels =
        st.dels ++ idxsWhere st.j l (fun p => decide (¬ reloc p.x i = (i : Int))) := by
  intro l
  induction l generalizing st with
  | nil => simp [idxsWhere]
  | cons a l ih =>
    rw [List.foldl_cons, ih, innerStep_dels, innerStep_j]
    by_cases h1 : reloc a.x i = (i : Int)
    · simp [idxsWhere, h1]
    · simp only [idxsWhere, if_neg h1]
      rw [if_pos (by simpa using h1)]
      rw [List.append_assoc, List.singleton_append]

theorem innerFold_pop_length (st : LoopSt) :
    ∀ (l : List Particle),
      (l.foldl (innerStep reloc oids i) st).pop.length = st.pop.length := by
  intro l
  induction l generalizing st with
  | nil => rfl
  | cons a l ih => rw [List.foldl_cons, ih, innerStep_pop_length]

theorem innerFold_objs_length (st : LoopSt) :
    ∀ (l : List Particle),
      (l.foldl (innerStep reloc oids i) st).objs.length = st.objs.length := by
  intro l
  induction l generalizing st with
  | nil => rfl
  | cons a l ih => rw [List.foldl_cons, ih, innerStep_objs_length]

theorem innerFold_pop_getD_i (st : LoopSt) :
    ∀ (l : List Particle),
      (l.foldl (innerStep reloc oids i) st).pop.getD i [] = st.pop.getD i [] := by
  intro l
  induction l generalizing st with
  | nil => rfl
  | cons a l ih => rw [List.foldl_cons, ih, innerStep_pop_getD_i]

theorem innerFold_pop_extends (st : LoopSt) :
    ∀ (l : List Particle) (k : Nat),
      ∃ suf, (l.foldl (innerStep reloc oids i) st).pop.getD k [] =
        st.pop.getD k [] ++ suf := by
  intro l
  induction l generalizing st with
  | nil => exact fun k => ⟨[], by simp⟩
  | cons a l ih =>
    intro k
    rw [List.foldl_cons]
    obtain ⟨s1, hs1⟩ := innerStep_pop_extends reloc oids i st a k
    obtain ⟨s2, hs2⟩ := ih (innerStep reloc oids i st a) k
    exact ⟨s1 ++ s2, by rw [hs2, hs1, List.append_assoc]⟩

theorem innerFold_flatten (st : LoopSt) :
    ∀ (l : List Particle), (∀ x c, reloc x c < (st.pop.length : Int)) →
      (↑(l.foldl (innerStep reloc oids i) st).pop.flatten : Multiset Particle) =
        ↑st.pop.flatten +
          ↑(l.filter (fun p => decide (0 ≤ reloc p.x i) && decide (¬ reloc p.x i = (i : Int)))) := by
  intro l
  induction l generalizing st with
  | nil => simp
  | cons a l ih =>
    intro hcod
    rw [List.foldl_cons]
    have hlen : (innerStep reloc oids i st a).pop.length = st.pop.length :=
      innerStep_pop_length reloc oids i st a
    have ih2 := ih (innerStep reloc oids i st a) (by rw [hlen]; exact hcod)
    rw [ih2, innerStep_flatten reloc oids i st a (hcod a.x i)]
    by_cases h1 : reloc a.x i = (i : Int)
    · rw [if_neg (fun hc => hc.2 h1)]
      have hx : decide (¬ reloc a.x i = (i : Int)) = false := by simp [h1]
      rw [List.filter_cons, hx, Bool.and_false, if_neg (by simp), add_zero]
    · by_cases h2 : 0 ≤ reloc a.x i
      · rw [if_pos ⟨h2, h1⟩]
        have : (decide (0 ≤ reloc a.x i) && decide (¬ reloc a.x i = (i : Int))) = true := by
          simp [h1, h2]
        rw [List.filter_cons, if_pos this]
        simp only [← Multiset.cons_coe, ← Multiset.singleton_add]
        abel
      · rw [if_neg (fun hc => h2 hc.1)]
        have hx : decide (0 ≤ reloc a.x i) = false := by simpa using h2
        rw [List.filter_cons, hx, Bool.false_and, if_neg (by simp), add_zero]

end UpdatePass

/-! ### The deletion loop applied to the collected indices -/

theorem idxsWhere_ge (f : α → Bool) :
    ∀ (l : List α) (s : Nat), ∀ x ∈ idxsWhere s l f, s ≤ x
  | [], s, x, hx => by cases hx
  | a :: as, s, x, hx => by
    by_cases hf : f a
    · rw [idxsWhere, if_pos hf] at hx
      rcases List.mem_cons.mp hx with rfl | hx'
      · exact Nat.le_refl x
      · exact Nat.le_of_lt (idxsWhere_ge f as (s + 1) x hx')
    · rw [idxsWhere, if_neg hf] at hx
      exact Nat.le_of_lt (idxsWhere_ge f as (s + 1) x hx)

theorem idxsWhere_lt (f : α → Bool) :
    ∀ (l : List α) (s : Nat), ∀ x ∈ idxsWhere s l f, x < s + l.length
  | [], s, x, hx => by cases hx
  | a :: as, s, x, hx => by
    by_cases hf : f a
    · rw [idxsWhere, if_pos hf] at hx
      rcases List.mem_cons.mp hx with rfl | hx'
      · simp
      · have := idxsWhere_lt f as (s + 1) x hx'
        simp only [List.length_cons]; omega
    · rw [idxsWhere, if_neg hf] at hx
      have := idxsWhere_lt f as (s + 1) x hx
      simp only [List.length_cons]; omega

theorem strictDesc_append_singleton (s : Nat) :
    ∀ (xs : List Nat), strictDesc xs = true → (∀ x ∈ xs, s < x) →
      strictDesc (xs ++ [s]) = true
  | [], _, _ => rfl
  | [a], _, h => by
    simp only [List.cons_append, List.nil_append, strictDesc, Bool.and_eq_true_iff]
    exact ⟨by simpa using h a (by simp), trivial⟩
  | a :: b :: r, hd, h => by
    have hd' : strictDesc (b :: r) = true := strictDesc_tail hd
    have hb : (b < a : Bool) = true := (Bool.and_eq_true_iff.mp hd).1
    have ih := strictDesc_append_singleton s (b :: r) hd'
      (fun x hx => h x (List.mem_cons_of_mem a hx))
    simp only [List.cons_append] at ih ⊢
    show (decide (b < a) && strictDesc (b :: (r ++ [s]))) = true
    rw [Bool.and_eq_true_iff]
    constructor
    · simpa using hb
    · simpa using ih

theorem idxsWhere_reverse_strictDesc (f : α → Bool) :
    ∀ (l : List α) (s : Nat), strictDesc (idxsWhere s l f).reverse = true
  | [], s => rfl
  | a :: as, s => by
    by_cases hf : f a
    · rw [idxsWhere, if_pos hf, List.reverse_cons]
      refine strictDesc_append_singleton s _ (idxsWhere_reverse_strictDesc f as (s + 1)) ?_
      intro x hx
      have := idxsWhere_ge f as (s + 1) x (List.mem_reverse.mp hx)
      omega
    · rw [idxsWhere, if_neg hf]
      exact idxsWhere_reverse_strictDesc f as (s + 1)

theorem idxFilter_not_idxsWhere (f : α → Bool) :
    ∀ (l : List α) (s : Nat),
      idxFilter s l (fun k => decide (k ∉ idxsWhere s l f)) = l.filter (fun a => !f a)
  | [], s => rfl
  | a :: as, s => by
    by_cases hf : f a
    · have hD : idxsWhere s (a :: as) f = s :: idxsWhere (s + 1) as f := by
        rw [idxsWhere, if_pos hf]
      have hs : (decide (s ∉ idxsWhere s (a :: as) f)) = false := by
        rw [hD]; simp
      rw [idxFilter, hs]
      simp only [Bool.false_eq_true, if_false]
      have hcong : idxFilter (s + 1) as (fun k => decide (k ∉ idxsWhere s (a :: as) f)) =
          idxFilter (s + 1) as (fun k => decide (k ∉ idxsWhere (s + 1) as f)) := by
        refine idxFilter_congr as (s + 1) _ _ ?_
        intro k hk1 hk2
        rw [hD]
        have : ¬ k = s := by omega
        simp [this]
      rw [hcong, idxFilter_not_idxsWhere f as (s + 1), List.filter_cons]
      have hfa : (!f a) = false := by simp [hf]
      rw [hfa]
      simp
    · have hD : idxsWhere s (a :: as) f = idxsWhere (s + 1) as f := by
        rw [idxsWhere, if_neg hf]
      have hs : (decide (s ∉ idxsWhere s (a :: as) f)) = true := by
        rw [hD]
        have : s ∉ idxsWhere (s + 1) as f := fun hmem => by
          have := idxsWhere_ge f as (s + 1) s hmem
          omega
        simpa using this
      rw [idxFilter, hs]
      simp only [if_true]
      have hcong : idxFilter (s + 1) as (fun k => decide (k ∉ idxsWhere s (a :: as) f)) =
          idxFilter (s + 1) as (fun k => decide (k ∉ idxsWhere (s + 1) as f)) := by
        refine idxFilter_congr as (s + 1) _ _ ?_
        intro k hk1 hk2
        rw [hD]
      rw [hcong, idxFilter_not_idxsWhere f as (s + 1), List.filter_cons]
      have hfa : (!f a) = true := by simp [hf]
      rw [hfa]
      simp

theorem deleteDesc_idxsWhere [DecidableEq α] (f : α → Bool) (l : List α) :
    (↑(deleteDesc (idxsWhere 0 l f).reverse l) : Multiset α) =
      ↑(l.filter (fun a => !f a)) := by
  have hdesc := idxsWhere_reverse_strictDesc f l 0
  have hbound : ∀ d ∈ (idxsWhere 0 l f).reverse, d < l.length := by
    intro d hd
    have := idxsWhere_lt f l 0 d (List.mem_reverse.mp hd)
    omega
  rw [deleteDesc_multiset _ l hdesc hbound]
  have hfn : (fun i => decide (i ∉ (idxsWhere 0 l f).reverse)) =
      (fun i => decide (i ∉ idxsWhere 0 l f)) := by
    funext i
    simp [List.mem_reverse]
  rw [hfn, idxFilter_not_idxsWhere f l 0]

/-! ### One outer-loop iteration of the update pass -/

section ProcessCell

variable (reloc : Pt → Nat → Int) (oids : Nat → Option Nat)

theorem cell_split (i : Nat) : ∀ (l : List Particle),
    (↑(l.filter (fun p => !decide (¬ reloc p.x i = (i : Int)))) : Multiset Particle) +
      ↑(l.filter (fun p => decide (0 ≤ reloc p.x i) && decide (¬ reloc p.x i = (i : Int)))) +
      ↑(l.filter (fun p => decide (reloc p.x i < 0))) = ↑l
  | [] => rfl
  | a :: l => by
    have ih := cell_split i l
    rw [List.filter_cons, List.filter_cons, List.filter_cons]
    by_cases h1 : reloc a.x i = (i : Int)
    · have c1 : (!decide (¬ reloc a.x i = (i : Int))) = true := by simp [h1]
      have c2 : (decide (0 ≤ reloc a.x i) && decide (¬ reloc a.x i = (i : Int))) = false := by
        simp [h1]
      have c3 : decide (reloc a.x i < 0) = false := by
        have : ¬ reloc a.x i < 0 := by omega
        simpa using this
      rw [c1, c2, c3]
      simp only [if_true, Bool.false_eq_true, if_false, ← Multiset.cons_coe,
        ← Multiset.singleton_add]
      rw [← ih]
      abel
    · by_cases h2 : reloc a.x i < 0
      · have c1 : (!decide (¬ reloc a.x i = (i : Int))) = false := by simp [h1]
        have c2 : (decide (0 ≤ reloc a.x i) && decide (¬ reloc a.x i = (i : Int))) = false := by
          have : decide (0 ≤ reloc a.x i) = false := by
            have : ¬ 0 ≤ reloc a.x i := by omega
            simpa using this
          simp [this]
        have c3 : decide (reloc a.x i < 0) = true := by simpa using h2
        rw [c1, c2, c3]
        simp only [if_true, Bool.false_eq_true, if_false, ← Multiset.cons_coe,
          ← Multiset.singleton_add]
        rw [← ih]
        abel
      · have c1 : (!decide (¬ reloc a.x i = (i : Int))) = false := by simp [h1]
        have c2 : (decide (0 ≤ reloc a.x i) && decide (¬ reloc a.x i = (i : Int))) = true := by
          have h0 : 0 ≤ reloc a.x i := by omega
          simp [h0, h1]
        have c3 : decide (reloc a.x i < 0) = false := by simpa using h2
        rw [c1, c2, c3]
        simp only [if_true, Bool.false_eq_true, if_false, ← Multiset.cons_coe,
          ← Multiset.singleton_add]
        rw [← ih]
        abel

theorem negParts_append (e1 e2 : List Ev) :
    negParts (e1 ++ e2) = negParts e1 + negParts e2 := by
  simp [negParts]

theorem negParts_map (i : Nat) (l : List Particle) :
    negParts (l.map (fun p => ⟨i, p, reloc p.x i⟩)) =
      ↑(l.filter (fun p => decide (reloc p.x i < 0))) := by
  unfold negParts
  rw [List.filter_map, List.map_map]
  congr 1
  have : ∀ (l' : List Particle),
      (l'.filter ((fun e => decide (e.res < 0)) ∘ (fun p => Ev.mk i p (reloc p.x i)))).map
        (Ev.part ∘ (fun p => Ev.mk i p (reloc p.x i))) =
      l'.filter (fun p => decide (reloc p.x i < 0)) := by
    intro l'
    induction l' with
    | nil => rfl
    | cons a t ih =>
      rw [List.filter_cons, List.filter_cons]
      by_cases h : reloc a.x i < 0
      · simp [Function.comp, h, ih]
      · simp [Function.comp, h, ih]
  exact this l

theorem processCell_evs (st : UpdSt) (i : Nat) :
    (processCell reloc oids st i).evs =
      st.evs ++ (st.pop.getD i []).map (fun p => ⟨i, p, reloc p.x i⟩) := by
  unfold processCell
  exact innerFold_evs reloc oids i ⟨st.pop, st.objs, st.evs, [], 0⟩ (st.pop.getD i [])

theorem processCell_pop_length (st : UpdSt) (i : Nat) :
    (processCell reloc oids st i).pop.length = st.pop.length := by
  unfold processCell
  rw [List.length_set]
  exact innerFold_pop_length reloc oids i ⟨st.pop, st.objs, st.evs, [], 0⟩ (st.pop.getD i [])

theorem processCell_objs_length (st : UpdSt) (i : Nat) :
    (processCell reloc oids st i).objs.length = st.objs.length := by
  unfold processCell
  exact innerFold_objs_length reloc oids i ⟨st.pop, st.objs, st.evs, [], 0⟩ (st.pop.getD i [])

theorem processCell_conserve (st : UpdSt) (i : Nat) (hi : i < st.pop.length)
    (hcod : ∀ x c, reloc x c < (st.pop.length : Int)) :
    (↑(processCell reloc oids st i).pop.flatten : Multiset Particle) +
        negParts (processCell reloc oids st i).evs =
      ↑st.pop.flatten + negParts st.evs := by
  unfold processCell
  set cell := st.pop.getD i [] with hcell
  set R := cell.foldl (innerStep reloc oids i) ⟨st.pop, st.objs, st.evs, [], 0⟩ with hR
  have hdels : R.dels = idxsWhere 0 cell (fun p => decide (¬ reloc p.x i = (i : Int))) := by
    rw [hR, innerFold_dels]
    simp
  have hRlen : R.pop.length = st.pop.length :=
    innerFold_pop_length reloc oids i _ cell
  have hRgetD : R.pop.getD i [] = cell :=
    innerFold_pop_getD_i reloc oids i _ cell
  have hRflat : (↑R.pop.flatten : Multiset Particle) =
      ↑st.pop.flatten +
        ↑(cell.filter (fun p => decide (0 ≤ reloc p.x i) && decide (¬ reloc p.x i = (i : Int)))) :=
    innerFold_flatten reloc oids i _ cell hcod
  have hRevs : R.evs = st.evs ++ cell.map (fun p => ⟨i, p, reloc p.x i⟩) :=
    innerFold_evs reloc oids i _ cell
  have hdel : (↑(deleteDesc R.dels.reverse cell) : Multiset Particle) =
      ↑(cell.filter (fun p => !decide (¬ reloc p.x i = (i : Int)))) := by
    rw [hdels]
    exact deleteDesc_idxsWhere _ cell
  have hset : (↑(R.pop.set i (deleteDesc R.dels.reverse cell)).flatten : Multiset Particle) +
      ↑(R.pop.getD i []) = ↑R.pop.flatten + ↑(deleteDesc R.dels.reverse cell) :=
    set_flatten _ R.pop i (by omega)
  rw [hRgetD, hRflat, hdel] at hset
  show (↑(R.pop.set i (deleteDesc R.dels.reverse cell)).flatten : Multiset Particle) +
      negParts R.evs = ↑st.pop.flatten + negParts st.evs
  rw [hRevs, negParts_append, negParts_map]
  have key := cell_split reloc i cell
  have goal2 : (↑(R.pop.set i (deleteDesc R.dels.reverse cell)).flatten : Multiset Particle) +
      ↑(cell.filter (fun p => decide (reloc p.x i < 0))) + ↑cell =
      ↑st.pop.flatten + ↑cell := by
    calc (↑(R.pop.set i (deleteDesc R.dels.reverse cell)).flatten : Multiset Particle) +
        ↑(cell.filter (fun p => decide (reloc p.x i < 0))) + ↑cell
        = ((↑(R.pop.set i (deleteDesc R.dels.reverse cell)).flatten : Multiset Particle) + ↑cell) +
          ↑(cell.filter (fun p => decide (reloc p.x i < 0))) := by abel
      _ = (↑st.pop.flatten +
            ↑(cell.filter (fun p => decide (0 ≤ reloc p.x i) && decide (¬ reloc p.x i = (i : Int)))) +
            ↑(cell.filter (fun p => !decide (¬ reloc p.x i = (i : Int))))) +
          ↑(cell.filter (fun p => decide (reloc p.x i < 0))) := by rw [hset]
      _ = ↑st.pop.flatten +
          (↑(cell.filter (fun p => !decide (¬ reloc p.x i = (i : Int)))) +
            ↑(cell.filter (fun p => decide (0 ≤ reloc p.x i) && decide (¬ reloc p.x i = (i : Int)))) +
            ↑(cell.filter (fun p => decide (reloc p.x i < 0)))) := by abel
      _ = ↑st.pop.flatten + ↑cell := by rw [key]
  have := add_right_cancel goal2
  calc (↑(R.pop.set i (deleteDesc R.dels.reverse cell)).flatten : Multiset Particle) +
      (negParts st.evs + ↑(cell.filter (fun p => decide (reloc p.x i < 0))))
      = (↑(R.pop.set i (deleteDesc R.dels.reverse cell)).flatten : Multiset Particle) +
        ↑(cell.filter (fun p => decide (reloc p.x i < 0))) + negParts st.evs := by abel
    _ = ↑st.pop.flatten + negParts st.evs := by rw [this]

theorem innerFold_stay (i : Nat) :
    ∀ (l : List Particle) (st : LoopSt), (∀ p ∈ l, reloc p.x i = (i : Int)) →
      l.foldl (innerStep reloc oids i) st =
        ⟨st.pop, st.objs, st.evs ++ l.map (fun p => ⟨i, p, reloc p.x i⟩), st.dels,
          st.j + l.length⟩
  | [], st, _ => by simp
  | a :: l, st, h => by
    rw [List.foldl_cons,
      innerStep_stay reloc oids i st a (h a (List.mem_cons_self a l)),
      innerFold_stay i l _ (fun p hp => h p (List.mem_cons_of_mem a hp))]
    simp only [List.map_cons, List.length_cons]
    rw [List.append_assoc, List.singleton_append]
    congr 1
    omega

theorem innerFold_absorb (i : Nat) (l1 l2 : List Particle) (p : Particle) (o : Nat)
    (st : LoopSt)
    (h1 : ∀ q ∈ l1, reloc q.x i = (i : Int)) (h2 : ∀ q ∈ l2, reloc q.x i = (i : Int))
    (hneg : reloc p.x i < 0)
    (ho : oids (-(reloc p.x i)).toNat = some o) :
    (l1 ++ p :: l2).foldl (innerStep reloc oids i) st =
      ⟨st.pop, modifyIdx st.objs o (fun ob => { ob with charge := ob.charge + p.q }),
        st.evs ++ (l1 ++ p :: l2).map (fun q => ⟨i, q, reloc q.x i⟩),
        st.dels ++ [st.j + l1.length], st.j + l1.length + 1 + l2.length⟩ := by
  rw [List.foldl_append, innerFold_stay reloc oids i l1 st h1, List.foldl_cons]
  have hne : ¬ reloc p.x i = (i : Int) := by omega
  rw [innerStep_absorb reloc oids i _ p o hne hneg ho]
  rw [innerFold_stay reloc oids i l2 _ h2]
  simp only [List.map_append, List.map_cons, List.append_assoc, List.singleton_append]

theorem processCell_stay (st : UpdSt) (i : Nat) (hi : i < st.pop.length)
    (hstay : ∀ p ∈ st.pop.getD i [], reloc p.x i = (i : Int)) :
    processCell reloc oids st i =
      ⟨st.pop, st.objs,
        st.evs ++ (st.pop.getD i []).map (fun p => ⟨i, p, reloc p.x i⟩)⟩ := by
  simp only [processCell]
  rw [innerFold_stay reloc oids i (st.pop.getD i []) _ hstay]
  show UpdSt.mk (st.pop.set i (deleteDesc ([] : List Nat).reverse (st.pop.getD i []))) _ _ = _
  rw [List.reverse_nil]
  show UpdSt.mk (st.pop.set i (st.pop.getD i [])) _ _ = _
  rw [set_getD_self [] st.pop i hi]

theorem processCell_absorb (st : UpdSt) (i : Nat) (hi : i < st.pop.length)
    (l1 l2 : List Particle) (p : Particle) (o : Nat)
    (hcell : st.pop.getD i [] = l1 ++ p :: l2)
    (h1 : ∀ q ∈ l1, reloc q.x i = (i : Int)) (h2 : ∀ q ∈ l2, reloc q.x i = (i : Int))
    (hneg : reloc p.x i < 0)
    (ho : oids (-(reloc p.x i)).toNat = some o) :
    processCell reloc oids st i =
      ⟨st.pop.set i (swapRemove (l1 ++ p :: l2) l1.length),
        modifyIdx st.objs o (fun ob => { ob with charge := ob.charge + p.q }),
        st.evs ++ (l1 ++ p :: l2).map (fun q => ⟨i, q, reloc q.x i⟩)⟩ := by
  simp only [processCell]
  rw [hcell, innerFold_absorb reloc oids i l1 l2 p o _ h1 h2 hneg ho]
  simp only [List.nil_append, Nat.zero_add, List.reverse_cons, List.reverse_nil]
  rfl

theorem processCell_pop_prefix_ne (st : UpdSt) (i k : Nat) (hki : ¬ k = i) :
    ∃ suf, (processCell reloc oids st i).pop.getD k [] = st.pop.getD k [] ++ suf := by
  obtain ⟨suf, hsuf⟩ := innerFold_pop_extends reloc oids i
    ⟨st.pop, st.objs, st.evs, [], 0⟩ (st.pop.getD i []) k
  refine ⟨suf, ?_⟩
  have hpc : (processCell reloc oids st i).pop =
      ((st.pop.getD i []).foldl (innerStep reloc oids i)
        ⟨st.pop, st.objs, st.evs, [], 0⟩).pop.set i
        (deleteDesc ((st.pop.getD i []).foldl (innerStep reloc oids i)
          ⟨st.pop, st.objs, st.evs, [], 0⟩).dels.reverse (st.pop.getD i [])) := rfl
  rw [hpc, getD_set_ne [] _ _ i k (fun he => hki he.symm)]
  exact hsuf

/-! ### The update pass as a whole -/

theorem updFold_conserve : ∀ (L : List Nat) (st : UpdSt),
    (∀ i ∈ L, i < st.pop.length) →
    (∀ x c, reloc x c < (st.pop.length : Int)) →
    (L.foldl (processCell reloc oids) st).pop.length = st.pop.length ∧
      (↑(L.foldl (processCell reloc oids) st).pop.flatten : Multiset Particle) +
          negParts (L.foldl (processCell reloc oids) st).evs =
        ↑st.pop.flatten + negParts st.evs
  | [], st, _, _ => ⟨rfl, rfl⟩
  | i :: L, st, hL, hcod => by
    rw [List.foldl_cons]
    have hi : i < st.pop.length := hL i (List.mem_cons_self i L)
    have hlen : (processCell reloc oids st i).pop.length = st.pop.length :=
      processCell_pop_length reloc oids st i
    have ih := updFold_conserve L (processCell reloc oids st i)
      (fun t ht => by rw [hlen]; exact hL t (List.mem_cons_of_mem i ht))
      (fun x c => by rw [hlen]; exact hcod x c)
    refine ⟨by rw [ih.1, hlen], ?_⟩
    rw [ih.2, processCell_conserve reloc oids st i hi hcod]

theorem updFold_evs_mono : ∀ (L : List Nat) (st : UpdSt),
    ∃ e, (L.foldl (processCell reloc oids) st).evs = st.evs ++ e
  | [], st => ⟨[], by simp⟩
  | i :: L, st => by
    obtain ⟨e, he⟩ := updFold_evs_mono L (processCell reloc oids st i)
    rw [List.foldl_cons]
    refine ⟨(st.pop.getD i []).map (fun p => ⟨i, p, reloc p.x i⟩) ++ e, ?_⟩
    rw [he, processCell_evs, List.append_assoc]

theorem updFold_evs_le : ∀ (L : List Nat) (st : UpdSt) (k : Nat), k ∈ L →
    (↑((st.pop.getD k []).map (fun p => (⟨k, p, reloc p.x k⟩ : Ev))) : Multiset Ev) ≤
      ↑(L.foldl (processCell reloc oids) st).evs
  | [], st, k, hk => absurd hk (List.not_mem_nil k)
  | i :: L, st, k, hk => by
    rw [List.foldl_cons]
    by_cases hki : k = i
    · subst hki
      obtain ⟨e, he⟩ := updFold_evs_mono reloc oids L (processCell reloc oids st k)
      rw [he, processCell_evs]
      rw [List.append_assoc]
      have : (↑(st.evs ++ ((st.pop.getD k []).map (fun p => (⟨k, p, reloc p.x k⟩ : Ev)) ++ e)) :
          Multiset Ev) =
          ↑((st.pop.getD k []).map (fun p => (⟨k, p, reloc p.x k⟩ : Ev))) + (↑st.evs + ↑e) := by
        simp only [← Multiset.coe_add]
        abel
      rw [this]
      exact self_le_add_right _ _
    · have hk' : k ∈ L := by
        rcases List.mem_cons.mp hk with h | h
        · exact absurd h hki
        · exact h
      obtain ⟨suf, hsuf⟩ := processCell_pop_prefix_ne reloc oids st i k hki
      have ih := updFold_evs_le L (processCell reloc oids st i) k hk'
      rw [hsuf] at ih
      refine le_trans ?_ ih
      rw [List.map_append]
      simp only [← Multiset.coe_add]
      exact self_le_add_right _ _

theorem updFold_stay : ∀ (L : List Nat) (st : UpdSt),
    (∀ i ∈ L, i < st.pop.length ∧ ∀ p ∈ st.pop.getD i [], reloc p.x i = (i : Int)) →
    (L.foldl (processCell reloc oids) st).pop = st.pop ∧
      (L.foldl (processCell reloc oids) st).objs = st.objs
  | [], st, _ => ⟨rfl, rfl⟩
  | i :: L, st, hL => by
    rw [List.foldl_cons]
    have hi := hL i (List.mem_cons_self i L)
    have hpc := processCell_stay reloc oids st i hi.1 hi.2
    have hcond : ∀ t ∈ L, t < (processCell reloc oids st i).pop.length ∧
        ∀ p ∈ (processCell reloc oids st i).pop.getD t [], reloc p.x t = (t : Int) := by
      rw [hpc]
      exact fun t ht => hL t (List.mem_cons_of_mem i ht)
    have ih := updFold_stay L (processCell reloc oids st i) hcond
    have hp : (processCell reloc oids st i).pop = st.pop := by rw [hpc]
    have hob : (processCell reloc oids st i).objs = st.objs := by rw [hpc]
    exact ⟨by rw [ih.1, hp], by rw [ih.2, hob]⟩

end ProcessCell

/-! ### Adding and loading particles -/

theorem Particle.init_eq_some (x v : Pt) (q m : ℚ) (p : Particle)
    (h : Particle.init x v q m = some p) :
    p = ⟨x, v, q, m⟩ ∧ q ≠ 0 ∧ m ≠ 0 := by
  unfold Particle.init at h
  by_cases hc : q ≠ 0 ∧ m ≠ 0
  · rw [if_pos hc] at h
    exact ⟨(Option.some.inj h).symm, hc⟩
  · rw [if_neg hc] at h
    cases h

theorem add_particles_go_spec (locate : Pt → Int) :
    ∀ (items : List ((Pt × Pt) × ℚ × ℚ)) (pop pop' : List (List Particle)),
      (∀ x, locate x < (pop.length : Int)) →
      add_particles_go locate items pop = some pop' →
      pop'.length = pop.length ∧
      (∀ k, ∃ suf, pop'.getD k [] = pop.getD k [] ++ suf) ∧
      (↑pop'.flatten : Multiset Particle) = ↑pop.flatten +
        ↑((items.filter (fun t => decide (0 ≤ locate t.1.1))).map
          (fun t => Particle.mk t.1.1 t.1.2 t.2.1 t.2.2))
  | [], pop, pop', _, h => by
    have : pop = pop' := Option.some.inj h
    subst this
    exact ⟨rfl, fun k => ⟨[], by simp⟩, by simp⟩
  | ((x, v), q, m) :: rest, pop, pop', hcod, h => by
    rw [add_particles_go] at h
    by_cases hloc : 0 ≤ locate x
    · rw [if_pos hloc] at h
      cases hinit : Particle.init x v q m with
      | none => rw [hinit] at h; cases h
      | some prt =>
        rw [hinit] at h
        obtain ⟨hprt, hq, hm⟩ := Particle.init_eq_some x v q m prt hinit
        set pop2 := modifyIdx pop (locate x).toNat (fun c => c ++ [prt]) with hpop2
        have hlen2 : pop2.length = pop.length := modifyIdx_length _ pop _
        have ih := add_particles_go_spec locate rest pop2 pop'
          (fun y => by rw [hlen2]; exact hcod y) h
        have hlt : (locate x).toNat < pop.length := by
          have := hcod x
          omega
        have hflat2 : (↑pop2.flatten : Multiset Particle) = ↑pop.flatten + {prt} :=
          modifyIdx_flatten_append prt pop _ hlt
        refine ⟨by rw [ih.1, hlen2], ?_, ?_⟩
        · intro k
          obtain ⟨s2, hs2⟩ := ih.2.1 k
          by_cases hk : (locate x).toNat = k
          · subst hk
            refine ⟨[prt] ++ s2, ?_⟩
            rw [hs2, hpop2, modifyIdx_getD_self _ [] pop _ hlt, List.append_assoc]
          · refine ⟨s2, ?_⟩
            rw [hs2, hpop2, modifyIdx_getD_ne _ [] pop _ k hk]
        · rw [ih.2.2, hflat2, List.filter_cons, if_pos (by simpa using hloc)]
          rw [List.map_cons, hprt]
          simp only [← Multiset.cons_coe, ← Multiset.singleton_add]
          abel
    · rw [if_neg hloc] at h
      have ih := add_particles_go_spec locate rest pop pop' hcod h
      refine ⟨ih.1, ih.2.1, ?_⟩
      rw [ih.2.2, List.filter_cons, if_neg (by simpa using hloc)]

theorem add_particles_singleton (locate : Pt → Int) (pop : List (List Particle))
    (x v : Pt) (q m : ℚ) :
    add_particles locate pop [x] [v] [q] [m] =
      add_particles_go locate [((x, v), q, m)] pop := rfl

theorem load_file_spec (nDims : Nat) (locate : Pt → Int) :
    ∀ (lines : List (List ℚ)) (pop pop' : List (List Particle)),
      (∀ x, locate x < (pop.length : Int)) →
      load_file nDims locate lines pop = some pop' →
      pop'.length = pop.length ∧
      (∀ k, ∃ suf, pop'.getD k [] = pop.getD k [] ++ suf) ∧
      (↑pop'.flatten : Multiset Particle) = ↑pop.flatten +
        ↑((lines.filter (fun ln => decide (0 ≤ locate (ln.take nDims)))).map
          (parse_particle nDims))
  | [], pop, pop', _, h => by
    have : pop = pop' := Option.some.inj h
    subst this
    exact ⟨rfl, fun k => ⟨[], by simp⟩, by simp⟩
  | nums :: rest, pop, pop', hcod, h => by
    rw [load_file] at h
    cases hadd : add_particles locate pop [nums.take nDims] [(nums.drop nDims).take nDims]
        [nums.getD (2 * nDims) 0] [nums.getD (2 * nDims + 1) 0] with
    | none => rw [hadd] at h; cases h
    | some pop1 =>
      rw [hadd] at h
      rw [add_particles_singleton] at hadd
      have hstep := add_particles_go_spec locate _ pop pop1 hcod hadd
      have hlen1 : pop1.length = pop.length := hstep.1
      have ih := load_file_spec nDims locate rest pop1 pop'
        (fun y => by rw [hlen1]; exact hcod y) h
      refine ⟨by rw [ih.1, hlen1], ?_, ?_⟩
      · intro k
        obtain ⟨s1, hs1⟩ := hstep.2.1 k
        obtain ⟨s2, hs2⟩ := ih.2.1 k
        exact ⟨s1 ++ s2, by rw [hs2, hs1, List.append_assoc]⟩
      · rw [List.filter_cons]
        by_cases hloc : 0 ≤ locate (nums.take nDims)
        · rw [if_pos (by simpa using hloc)]
          rw [ih.2.2, hstep.2.2]
          have hone : (([((nums.take nDims, (nums.drop nDims).take nDims),
              nums.getD (2 * nDims) 0, nums.getD (2 * nDims + 1) 0)].filter
                (fun t => decide (0 ≤ locate t.1.1))).map
                (fun t => Particle.mk t.1.1 t.1.2 t.2.1 t.2.2)) =
              [Particle.mk (nums.take nDims) ((nums.drop nDims).take nDims)
                (nums.getD (2 * nDims) 0) (nums.getD (2 * nDims + 1) 0)] := by
            rw [List.filter_cons, if_pos (by simpa using hloc)]
            rfl
          rw [hone, List.map_cons]
          have hparse : parse_particle nDims nums = Particle.mk (nums.take nDims)
              ((nums.drop nDims).take nDims) (nums.getD (2 * nDims) 0)
              (nums.getD (2 * nDims + 1) 0) := rfl
          rw [hparse]
          simp only [Multiset.cons_coe, Multiset.coe_singleton, ← Multiset.singleton_add]
          abel
        · rw [if_neg (by simpa using hloc)]
          rw [ih.2.2, hstep.2.2]
          have hzero : (([((nums.take nDims, (nums.drop nDims).take nDims),
              nums.getD (2 * nDims) 0, nums.getD (2 * nDims + 1) 0)].filter
                (fun t => decide (0 ≤ locate t.1.1))).map
                (fun t => Particle.mk t.1.1 t.1.2 t.2.1 t.2.2)) = [] := by
            rw [List.filter_cons, if_neg (by simpa using hloc)]
            rfl
          rw [hzero]
          simp

/-! ### Splitting the outer loop at one distinguished cell -/

theorem range_eq_append (c N : Nat) (h : c < N) :
    List.range N = List.range' 0 c ++ c :: List.range' (c + 1) (N - c - 1) := by
  have h1 : List.range' 0 c ++ List.range' (0 + c) (N - c) = List.range' 0 (N - c + c) :=
    List.range'_append_1 0 c (N - c)
  have h2 : N - c + c = N := by omega
  have h3 : N - c = (N - c - 1) + 1 := by omega
  rw [h2] at h1
  rw [List.range_eq_range' N, ← h1, h3, List.range'_succ]
  simp

theorem count_getD_le (p : Particle) :
    ∀ (pop : List (List Particle)) (i : Nat),
      (pop.getD i []).count p ≤ pop.flatten.count p
  | [], i => by simp
  | c :: cs, 0 => by
    rw [List.getD_cons_zero, List.flatten_cons, List.count_append]
    omega
  | c :: cs, i + 1 => by
    rw [List.getD_cons_succ, List.flatten_cons, List.count_append]
    have := count_getD_le p cs i
    omega

theorem count_getD_add_le (p : Particle) :
    ∀ (pop : List (List Particle)) (c i : Nat), ¬ c = i →
      (pop.getD c []).count p + (pop.getD i []).count p ≤ pop.flatten.count p
  | [], c, i, _ => by simp
  | a :: cs, 0, 0, h => absurd rfl h
  | a :: cs, 0, i + 1, _ => by
    rw [List.getD_cons_zero, List.getD_cons_succ, List.flatten_cons, List.count_append]
    have := count_getD_le p cs i
    omega
  | a :: cs, c + 1, 0, _ => by
    rw [List.getD_cons_zero, List.getD_cons_succ, List.flatten_cons, List.count_append]
    have := count_getD_le p cs c
    omega
  | a :: cs, c + 1, i + 1, h => by
    rw [List.getD_cons_succ, List.getD_cons_succ, List.flatten_cons, List.count_append]
    have := count_getD_add_le p cs c i (fun he => h (by omega))
    omega

theorem update_eq (reloc : Pt → Nat → Int) (objects : List Obj)
    (pop : List (List Particle)) :
    update reloc objects pop =
      (List.range pop.length).foldl
        (processCell reloc (lookupLast (objects.map Obj.domain))) ⟨pop, objects, []⟩ := rfl

/-- C3: a particle with charge q in cell c whose relocation result is the
negative code of a registered absorbing body is removed from the population
by the update pass, the body's charge accumulator grows by exactly q, and
the particle count drops by exactly 1.  The hypotheses say: the relocation
function stays within the mesh, the particle occurs once in the population,
its relocation result is negative and its negation is the code of object
`oi` in the `object_ids` dict, and every other particle keeps its cell. -/
theorem claim_C3_absorption (reloc : Pt → Nat → Int) (objects : List Obj)
    (pop : List (List Particle)) (c : Nat) (p : Particle) (oi : Nat)
    (hcod : ∀ x c', reloc x c' < (pop.length : Int))
    (hc : c < pop.length)
    (hp : p ∈ pop.getD c [])
    (hcount : pop.flatten.count p = 1)
    (hneg : reloc p.x c < 0)
    (ho : lookupLast (objects.map Obj.domain) (-(reloc p.x c)).toNat = some oi)
    (hstay : ∀ c' < pop.length, ∀ q ∈ pop.getD c' [], ¬ q = p → reloc q.x c' = (c' : Int)) :
    ((update reloc objects pop).objs.map Obj.charge).getD oi 0 =
        (objects.map Obj.charge).getD oi 0 + p.q ∧
      num_of_particles (update reloc objects pop).pop + 1 = num_of_particles pop ∧
      p ∉ (update reloc objects pop).pop.flatten := by
  obtain ⟨l1, l2, hcell⟩ := List.append_of_mem hp
  have hccell : (pop.getD c []).count p = l1.count p + (l2.count p + 1) := by
    rw [hcell, List.count_append, List.count_cons_self]
  have hcle := count_getD_le p pop c
  have hl1z : l1.count p = 0 := by omega
  have hl2z : l2.count p = 0 := by omega
  have hpnl1 : p ∉ l1 := List.count_eq_zero.mp hl1z
  have hpnl2 : p ∉ l2 := List.count_eq_zero.mp hl2z
  have hl1stay : ∀ q ∈ l1, reloc q.x c = (c : Int) := by
    intro q hq
    refine hstay c hc q ?_ ?_
    · rw [hcell]; exact List.mem_append_left _ hq
    · intro he; rw [he] at hq; exact hpnl1 hq
  have hl2stay : ∀ q ∈ l2, reloc q.x c = (c : Int) := by
    intro q hq
    refine hstay c hc q ?_ ?_
    · rw [hcell]
      exact List.mem_append_right _ (List.mem_cons_of_mem p hq)
    · intro he; rw [he] at hq; exact hpnl2 hq
  have hother : ∀ i, i < pop.length → ¬ i = c → ∀ q ∈ pop.getD i [], reloc q.x i = (i : Int) := by
    intro i hiN hic q hq
    refine hstay i hiN q hq ?_
    intro he
    rw [he] at hq
    have h1 : 0 < (pop.getD i []).count p := List.count_pos_iff.mpr hq
    have h2 := count_getD_add_le p pop c i (fun he2 => hic he2.symm)
    omega
  set oids := lookupLast (objects.map Obj.domain) with hoids
  rw [update_eq, range_eq_append c pop.length hc, List.foldl_append, List.foldl_cons]
  set st0 : UpdSt := ⟨pop, objects, []⟩ with hst0
  have hst1 := updFold_stay reloc oids (List.range' 0 c) st0 (by
    intro i hi
    have hi' := List.mem_range'_1.mp hi
    have hic : i < c := by omega
    refine ⟨by exact (show i < pop.length by omega), ?_⟩
    intro q hq
    exact hother i (by omega) (by omega) q hq)
  set st1 := (List.range' 0 c).foldl (processCell reloc oids) st0 with hst1def
  have hst1pop : st1.pop = pop := hst1.1
  have hst1objs : st1.objs = objects := hst1.2
  have hcell1 : st1.pop.getD c [] = l1 ++ p :: l2 := by rw [hst1pop, ← hcell]
  have habs := processCell_absorb reloc oids st1 c (by rw [hst1pop]; exact hc)
    l1 l2 p oi hcell1 hl1stay hl2stay hneg ho
  have hjp : l1.length < (l1 ++ p :: l2).length := by
    rw [List.length_append, List.length_cons]; omega
  set st2 := processCell reloc oids st1 c with hst2def
  have hst2pop : st2.pop = pop.set c (swapRemove (l1 ++ p :: l2) l1.length) := by
    rw [habs]
    show st1.pop.set c (swapRemove (l1 ++ p :: l2) l1.length) = _
    rw [hst1pop]
  have hst2objs : st2.objs =
      modifyIdx objects oi (fun ob => { ob with charge := ob.charge + p.q }) := by
    rw [habs]
    show modifyIdx st1.objs oi (fun ob => { ob with charge := ob.charge + p.q }) = _
    rw [hst1objs]
  have hst2len : st2.pop.length = pop.length := by
    rw [hst2pop, List.length_set]
  have hfin := updFold_stay reloc oids (List.range' (c + 1) (pop.length - c - 1)) st2 (by
    intro i hi
    have hi' := List.mem_range'_1.mp hi
    have hic : ¬ c = i := by omega
    have hgd : st2.pop.getD i [] = pop.getD i [] := by
      rw [hst2pop]
      exact getD_set_ne [] _ pop c i hic
    refine ⟨by rw [hst2len]; omega, ?_⟩
    intro q hq
    rw [hgd] at hq
    exact hother i (by omega) (fun he => hic he.symm) q hq)
  set fin := (List.range' (c + 1) (pop.length - c - 1)).foldl (processCell reloc oids) st2
    with hfindef
  have hfinpop : fin.pop = pop.set c (swapRemove (l1 ++ p :: l2) l1.length) := by
    rw [hfin.1, hst2pop]
  have hfinobjs : fin.objs =
      modifyIdx objects oi (fun ob => { ob with charge := ob.charge + p.q }) := by
    rw [hfin.2, hst2objs]
  have hget : (l1 ++ p :: l2).get ⟨l1.length, hjp⟩ = p := by
    simp only [List.get_eq_getElem]
    rw [List.getElem_append_right (Nat.le_refl l1.length)]
    simp
  have hsrm : (↑(swapRemove (l1 ++ p :: l2) l1.length) : Multiset Particle) + {p} =
      ↑(l1 ++ p :: l2) := by
    have := swapRemove_multiset (l1 ++ p :: l2) l1.length hjp
    rw [hget] at this
    exact this
  have hsetf : (↑(pop.set c (swapRemove (l1 ++ p :: l2) l1.length)).flatten :
      Multiset Particle) + ↑(pop.getD c []) =
      ↑pop.flatten + ↑(swapRemove (l1 ++ p :: l2) l1.length) :=
    set_flatten _ pop c hc
  have hkey : (↑(pop.set c (swapRemove (l1 ++ p :: l2) l1.length)).flatten :
      Multiset Particle) + {p} = ↑pop.flatten := by
    have h1 : (↑(pop.set c (swapRemove (l1 ++ p :: l2) l1.length)).flatten :
        Multiset Particle) + {p} + ↑(pop.getD c []) =
        ↑pop.flatten + ↑(pop.getD c []) := by
      calc (↑(pop.set c (swapRemove (l1 ++ p :: l2) l1.length)).flatten :
          Multiset Particle) + {p} + ↑(pop.getD c [])
          = ((↑(pop.set c (swapRemove (l1 ++ p :: l2) l1.length)).flatten :
              Multiset Particle) + ↑(pop.getD c [])) + {p} := by abel
        _ = (↑pop.flatten + ↑(swapRemove (l1 ++ p :: l2) l1.length)) + {p} := by rw [hsetf]
        _ = ↑pop.flatten + (↑(swapRemove (l1 ++ p :: l2) l1.length) + {p}) := by abel
        _ = ↑pop.flatten + ↑(l1 ++ p :: l2) := by rw [hsrm]
        _ = ↑pop.flatten + ↑(pop.getD c []) := by rw [hcell]
    exact add_right_cancel h1
  refine ⟨?_, ?_, ?_⟩
  · show (fin.objs.map Obj.charge).getD oi 0 = _
    rw [hfinobjs]
    rw [modifyIdx_map _ Obj.charge (fun t => t + p.q) (fun ob => rfl) objects oi]
    have hoilt : oi < (objects.map Obj.charge).length := by
      rw [List.length_map]
      have := lookupLast_lt_length _ _ _ ho
      rw [List.length_map] at this
      exact this
    rw [modifyIdx_getD_self _ 0 _ oi hoilt]
  · show num_of_particles fin.pop + 1 = _
    rw [hfinpop, num_of_particles_card, num_of_particles_card]
    have := congrArg Multiset.card hkey
    rw [Multiset.card_add] at this
    simpa using this
  · show p ∉ fin.pop.flatten
    rw [hfinpop]
    intro hmem
    have h1 : 0 < ((pop.set c (swapRemove (l1 ++ p :: l2) l1.length)).flatten).count p :=
      List.count_pos_iff.mpr hmem
    have h2 := congrArg (fun s => Multiset.count p s) hkey
    simp only [Multiset.count_add, Multiset.coe_count] at h2
    have h3 : Multiset.count p ({p} : Multiset Particle) = 1 := by simp
    rw [hcount] at h2
    simp [h3] at h2
    omega

/-- C1: the claim describes the guard the source must have — a bounded,
revisit-free walk that reaches the unique containing cell in at most
(number of cells) hops and fails fast on a cycle — but `relocate` is
unguarded recursion.  Evaluating the embedded code at the failing input:
on `cycleTopo` the point [5] has a unique containing cell (cell 2, reached
in one step when started there), yet the walk started at cell 0 is still
running after 3 hops (the cell count) and after any number of hops —
it alternates between cells 0 and 1 forever instead of failing fast. -/
theorem claim_C1_relocate_unbounded :
    (cycleTopo.contains 2 [5] = true ∧ cycleTopo.contains 0 [5] = false ∧
      cycleTopo.contains 1 [5] = false ∧ cycleTopo.facet_adjacents.length = 3) ∧
    relocate cycleTopo 1 [5] 2 = some 2 ∧
    (∀ fuel, relocate cycleTopo fuel [5] 0 = none ∧
      relocate cycleTopo fuel [5] 1 = none) := by
  refine ⟨by decide, by decide, ?_⟩
  intro fuel
  induction fuel with
  | zero => exact ⟨rfl, rfl⟩
  | succ f ih =>
    refine ⟨?_, ?_⟩
    · show relocate cycleTopo f [5] 1 = none
      exact ih.2
    · show relocate cycleTopo f [5] 0 = none
      exact ih.1

theorem claim_C3_absorption_witness :
    (((update (fun _ _ => (-7 : Int)) [⟨7, 0⟩] [[⟨[1], [0], 3, 2⟩]]).objs.map
          Obj.charge).getD 0 0 =
        (([⟨7, 0⟩] : List Obj).map Obj.charge).getD 0 0 + (⟨[1], [0], 3, 2⟩ : Particle).q) ∧
      (num_of_particles (update (fun _ _ => (-7 : Int)) [⟨7, 0⟩] [[⟨[1], [0], 3, 2⟩]]).pop + 1 =
        num_of_particles [[(⟨[1], [0], 3, 2⟩ : Particle)]]) ∧
      (⟨[1], [0], 3, 2⟩ : Particle) ∉
        (update (fun _ _ => (-7 : Int)) [⟨7, 0⟩] [[⟨[1], [0], 3, 2⟩]]).pop.flatten :=
  claim_C3_absorption (fun _ _ => -7) [⟨7, 0⟩] [[⟨[1], [0], 3, 2⟩]] 0 ⟨[1], [0], 3, 2⟩ 0
    (fun _ _ => by exact (by decide : (-7 : Int) < 1))
    (by decide) (by decide) (by decide) (by decide) (by decide)
    (fun c' hc' q hq hne => by
      have hlen : c' < 1 := by simpa using hc'
      have hc0 : c' = 0 := by omega
      rw [hc0] at hq
      have : q = ⟨[1], [0], 3, 2⟩ := by simpa using hq
      exact absurd this hne)

/-- C2: outside of an in-progress relocation pass the per-cell collections
partition the particles: after `update` the population multiset plus the
particles removed through a boundary equals the original multiset (so no
particle is duplicated into two collections and none disappears except
through a boundary), and `add_particles` and `load_file` (on success) extend
the population by exactly the located new particles, leaving everything else
in place. -/
theorem claim_C2_partition :
    (∀ (reloc : Pt → Nat → Int) (objects : List Obj) (pop : List (List Particle)),
        (∀ x c, reloc x c < (pop.length : Int)) →
        (↑(update reloc objects pop).pop.flatten : Multiset Particle) +
            negParts (update reloc objects pop).evs = ↑pop.flatten) ∧
      (∀ (locate : Pt → Int) (pop pop1 : List (List Particle)) (xs vs : List Pt)
          (qs ms : List ℚ),
        (∀ x, locate x < (pop.length : Int)) →
        add_particles locate pop xs vs qs ms = some pop1 →
        (↑pop1.flatten : Multiset Particle) = ↑pop.flatten +
          ↑((((xs.zip vs).zip (qs.zip ms)).filter (fun t => decide (0 ≤ locate t.1.1))).map
            (fun t => Particle.mk t.1.1 t.1.2 t.2.1 t.2.2))) ∧
      (∀ (nDims : Nat) (locate : Pt → Int) (lines : List (List ℚ))
          (pop pop1 : List (List Particle)),
        (∀ x, locate x < (pop.length : Int)) →
        load_file nDims locate lines pop = some pop1 →
        (↑pop1.flatten : Multiset Particle) = ↑pop.flatten +
          ↑((lines.filter (fun ln => decide (0 ≤ locate (ln.take nDims)))).map
            (parse_particle nDims))) := by
  refine ⟨?_, ?_, ?_⟩
  · intro reloc objects pop hcod
    rw [update_eq]
    have h := (updFold_conserve reloc (lookupLast (objects.map Obj.domain))
      (List.range pop.length) ⟨pop, objects, []⟩
      (fun i hi => List.mem_range.mp hi) hcod).2
    have hz : negParts (⟨pop, objects, []⟩ : UpdSt).evs = 0 := rfl
    rw [hz, add_zero] at h
    exact h
  · intro locate pop pop1 xs vs qs ms hcod h
    exact (add_particles_go_spec locate _ pop pop1 hcod h).2.2
  · intro nDims locate lines pop pop1 hcod h
    exact (load_file_spec nDims locate lines pop pop1 hcod h).2.2

theorem claim_C2_partition_witness :
    ((↑(update (fun _ _ => (0 : Int)) [] [[⟨[1], [0], 1, 1⟩]]).pop.flatten : Multiset Particle) +
        negParts (update (fun _ _ => (0 : Int)) [] [[⟨[1], [0], 1, 1⟩]]).evs =
        ↑([[(⟨[1], [0], 1, 1⟩ : Particle)]].flatten)) ∧
      ((↑(([[(⟨[2], [0], 5, 1⟩ : Particle)]] : List (List Particle)).flatten) : Multiset Particle) =
        ↑(([[]] : List (List Particle)).flatten) +
          ↑(((([[2]].zip [[0]]).zip ([5].zip [1])).filter
              (fun t => decide (0 ≤ (fun _ => (0 : Int)) t.1.1))).map
            (fun t => Particle.mk t.1.1 t.1.2 t.2.1 t.2.2))) ∧
      ((↑(([[(⟨[2], [0], 5, 1⟩ : Particle)]] : List (List Particle)).flatten) : Multiset Particle) =
        ↑(([[]] : List (List Particle)).flatten) +
          ↑((([[2, 0, 5, 1]] : List (List ℚ)).filter
              (fun ln => decide (0 ≤ (fun _ => (0 : Int)) (ln.take 1)))).map
            (parse_particle 1))) := by
  refine ⟨?_, ?_, ?_⟩
  · exact claim_C2_partition.1 (fun _ _ => 0) [] [[⟨[1], [0], 1, 1⟩]]
      (fun _ _ => by exact (by decide : (0 : Int) < 1))
  · exact claim_C2_partition.2.1 (fun _ => 0) [[]] [[⟨[2], [0], 5, 1⟩]] [[2]] [[0]] [5] [1]
      (fun _ => by exact (by decide : (0 : Int) < 1)) (by decide)
  · exact claim_C2_partition.2.2 1 (fun _ => 0) [[2, 0, 5, 1]] [[]] [[⟨[2], [0], 5, 1⟩]]
      (fun _ => by exact (by decide : (0 : Int) < 1)) (by decide)

/-- C4 (amended): the particle count after an update pass equals the count
before minus exactly the number of relocate calls of the pass with a
negative result, and every particle present at the start of the pass is
relocated at least once; the claim's stronger clause — relocated exactly
once — fails, because a particle moved to a cell iterated later in the same
pass is relocated a second time (see the counterexample). -/
theorem claim_C4_count_conservation (reloc : Pt → Nat → Int) (objects : List Obj)
    (pop : List (List Particle))
    (hcod : ∀ x c, reloc x c < (pop.length : Int)) :
    num_of_particles (update reloc objects pop).pop +
        ((update reloc objects pop).evs.filter (fun e => decide (e.res < 0))).length =
      num_of_particles pop ∧
    ∀ k, k < pop.length → ∀ p ∈ pop.getD k [],
      (⟨k, p, reloc p.x k⟩ : Ev) ∈ (update reloc objects pop).evs := by
  constructor
  · rw [update_eq]
    have h := (updFold_conserve reloc (lookupLast (objects.map Obj.domain))
      (List.range pop.length) ⟨pop, objects, []⟩
      (fun i hi => List.mem_range.mp hi) hcod).2
    have hz : negParts (⟨pop, objects, []⟩ : UpdSt).evs = 0 := rfl
    rw [hz, add_zero] at h
    have hcard := congrArg Multiset.card h
    rw [Multiset.card_add] at hcard
    have h1 : Multiset.card (negParts ((List.range pop.length).foldl
        (processCell reloc (lookupLast (objects.map Obj.domain)))
          ⟨pop, objects, []⟩).evs) =
        (((List.range pop.length).foldl
          (processCell reloc (lookupLast (objects.map Obj.domain)))
            ⟨pop, objects, []⟩).evs.filter (fun e => decide (e.res < 0))).length := by
      unfold negParts
      rw [Multiset.coe_card, List.length_map]
    rw [h1] at hcard
    rw [num_of_particles_card, num_of_particles_card]
    rw [Multiset.coe_card, Multiset.coe_card] at hcard ⊢
    exact hcard
  · intro k hk p hp
    rw [update_eq]
    have hle := updFold_evs_le reloc (lookupLast (objects.map Obj.domain))
      (List.range pop.length) ⟨pop, objects, []⟩ k (List.mem_range.mpr hk)
    have hmem : (⟨k, p, reloc p.x k⟩ : Ev) ∈
        (pop.getD k []).map (fun q => (⟨k, q, reloc q.x k⟩ : Ev)) :=
      List.mem_map_of_mem _ hp
    exact Multiset.mem_coe.mp (Multiset.mem_of_le hle (Multiset.mem_coe.mpr hmem))

theorem claim_C4_count_conservation_witness :
    (num_of_particles (update (fun _ _ => (0 : Int)) []
          [[⟨[1], [0], 1, 1⟩], []]).pop +
        ((update (fun _ _ => (0 : Int)) [] [[⟨[1], [0], 1, 1⟩], []]).evs.filter
          (fun e => decide (e.res < 0))).length =
      num_of_particles [[(⟨[1], [0], 1, 1⟩ : Particle)], []]) ∧
    ∀ k, k < ([[(⟨[1], [0], 1, 1⟩ : Particle)], []] : List (List Particle)).length →
      ∀ p ∈ ([[(⟨[1], [0], 1, 1⟩ : Particle)], []] : List (List Particle)).getD k [],
      (⟨k, p, (fun _ _ => (0 : Int)) p.x k⟩ : Ev) ∈
        (update (fun _ _ => (0 : Int)) [] [[⟨[1], [0], 1, 1⟩], []]).evs :=
  claim_C4_count_conservation (fun _ _ => 0) [] [[⟨[1], [0], 1, 1⟩], []]
    (fun _ _ => by exact (by decide : (0 : Int) < 2))

/-- C4 as frozen is false on the code: in a two-cell population whose single
particle moves from cell 0 to cell 1, the pass calls the relocation
function on that particle twice — once while iterating cell 0 and again
while iterating cell 1, into whose collection it was appended — not exactly
once. -/
theorem claim_C4_counterexample :
    ((update (fun _ c => if c = 0 then 1 else (c : Int)) []
        [[⟨[1], [0], 3, 2⟩], []]).evs.filter
        (fun e => decide (e.part = ⟨[1], [0], 3, 2⟩))).length = 2 := by decide

/-! ### Species normalization -/

/-- C7: registering a single species under the plasma params normalization
with no temperature makes the registry weight (volume / total count) ×
(raw mass / raw charge²), scales its charge and mass by that weight, and
leaves the thermal and drift velocities zero when their raw values are
zero.  `nt` is the defaulted total count (`num_total`, or
`num_per_cell * num_cells` when absent). -/
theorem claim_C7_normalization (sqrtFn : ℚ → ℚ) (volume : ℚ) (num_cells : Nat)
    (w0 : ℚ) (specie : SpecieKind) (kwargs : SpecieOpts)
    (htemp : (Specie.init specie kwargs).temperature_raw = none)
    (hvth : (Specie.init specie kwargs).v_thermal_raw = 0)
    (hvdr : (Specie.init specie kwargs).v_drift_raw = 0)
    (hq : ¬ (Specie.init specie kwargs).charge_raw = 0)
    (hnt : ¬ (Specie.init specie kwargs).num_total.getD
      ((Specie.init specie kwargs).num_per_cell * num_cells) = 0) :
    ∃ st1, append_specie sqrtFn ⟨volume, num_cells, [], w0⟩ specie kwargs = .ok st1 ∧
      st1.weight = volume / ((Specie.init specie kwargs).num_total.getD
            ((Specie.init specie kwargs).num_per_cell * num_cells) : ℚ) *
          ((Specie.init specie kwargs).mass_raw /
            (Specie.init specie kwargs).charge_raw ^ 2) ∧
      st1.species.map Specie.charge =
        [some (st1.weight * (Specie.init specie kwargs).charge_raw)] ∧
      st1.species.map Specie.mass =
        [some (st1.weight * (Specie.init specie kwargs).mass_raw)] ∧
      st1.species.map Specie.v_thermal = [some 0] ∧
      st1.species.map Specie.v_drift = [some 0] := by
  unfold append_specie
  generalize hgen : Specie.init specie kwargs = s0 at htemp hvth hvdr hq hnt ⊢
  obtain ⟨cr, mr, vtr, tr, vdrr, ntot, npc, ch, ms, vt, vd⟩ := s0
  replace htemp : tr = none := htemp
  replace hvth : vtr = 0 := hvth
  replace hvdr : vdrr = 0 := hvdr
  replace hq : ¬ cr = 0 := hq
  replace hnt : ¬ ntot.getD (npc * num_cells) = 0 := hnt
  subst htemp hvth hvdr
  have main : normalize_plasma_params sqrtFn
      ⟨volume, num_cells,
        ([] : List Specie) ++ [⟨cr, mr, 0, none, 0, ntot, npc, ch, ms, vt, vd⟩], w0⟩ =
      .ok ⟨volume, num_cells,
        [⟨cr, mr, 0, none, 0, some (ntot.getD (npc * num_cells)), npc,
          some (volume / (ntot.getD (npc * num_cells) : ℚ) * (mr / cr ^ 2) * cr),
          some (volume / (ntot.getD (npc * num_cells) : ℚ) * (mr / cr ^ 2) * mr),
          some 0, some 0⟩],
        volume / (ntot.getD (npc * num_cells) : ℚ) * (mr / cr ^ 2)⟩ := by
    unfold normalize_plasma_params
    simp only [List.nil_append, List.getLast?_singleton, List.dropLast_single,
      List.head?_cons]
    rw [if_neg hnt, if_neg hq]
    simp only [eq_self_iff_true, if_true, List.nil_append, List.dropLast_single,
      List.getLast?_singleton]
  exact ⟨_, main, rfl, rfl, rfl, rfl, rfl⟩

theorem claim_C7_normalization_witness :
    (¬ (Specie.init SpecieKind.electron ⟨none, none, none, none, some 32⟩).charge_raw = 0) ∧
    (∃ st1, append_specie (fun t => t) ⟨2, 4, [], 0⟩ SpecieKind.electron
        ⟨none, none, none, none, some 32⟩ = .ok st1 ∧
      st1.weight = 2 / ((Specie.init SpecieKind.electron
            ⟨none, none, none, none, some 32⟩).num_total.getD
            ((Specie.init SpecieKind.electron
              ⟨none, none, none, none, some 32⟩).num_per_cell * 4) : ℚ) *
          ((Specie.init SpecieKind.electron ⟨none, none, none, none, some 32⟩).mass_raw /
            (Specie.init SpecieKind.electron ⟨none, none, none, none, some 32⟩).charge_raw ^ 2) ∧
      st1.species.map Specie.charge =
        [some (st1.weight *
          (Specie.init SpecieKind.electron ⟨none, none, none, none, some 32⟩).charge_raw)] ∧
      st1.species.map Specie.mass =
        [some (st1.weight *
          (Specie.init SpecieKind.electron ⟨none, none, none, none, some 32⟩).mass_raw)] ∧
      st1.species.map Specie.v_thermal = [some 0] ∧
      st1.species.map Specie.v_drift = [some 0]) :=
  ⟨by decide, claim_C7_normalization (fun t => t) 2 4 0 SpecieKind.electron
    ⟨none, none, none, none, some 32⟩ rfl rfl rfl (by decide) (by decide)⟩

/-- C8 (amended): under the plasma params policy the inconsistent-temperature
check runs in one direction only.  When the reference species (the head of
the registry) carries a temperature, registering a species without one is
the fatal assertion "Specify temperature for all or none species"; the
counterexample shows that when the reference omits the temperature, a later
species that specifies one is accepted silently, its temperature ignored. -/
theorem claim_C8_temperature_assertion (sqrtFn : ℚ → ℚ) (st : SpeciesState)
    (specie : SpecieKind) (kwargs : SpecieOpts)
    (r : Specie) (rest : List Specie) (T : ℚ) (nt : Nat)
    (hsp : st.species = r :: rest)
    (hT : r.temperature_raw = some T)
    (hnt : r.num_total = some nt) (hnt0 : ¬ nt = 0) (hq : ¬ r.charge_raw = 0)
    (hknone : kwargs.temperature = none) :
    append_specie sqrtFn st specie kwargs =
      .error "Specify temperature for all or none species" := by
  unfold append_specie
  have hs0temp : (Specie.init specie kwargs).temperature_raw = none := hknone
  generalize hgen : Specie.init specie kwargs = s0 at hs0temp ⊢
  obtain ⟨cr, mr, vtr, tr, vdrr, ntot, npc, ch, ms, vt, vd⟩ := s0
  replace hs0temp : tr = none := hs0temp
  subst hs0temp
  unfold normalize_plasma_params
  simp only [List.getLast?_concat, List.dropLast_concat]
  rw [hsp]
  simp only [List.cons_append, List.head?_cons]
  rw [hnt]
  dsimp only
  rw [if_neg hnt0, if_neg hq]
  rw [hT]

theorem claim_C8_temperature_assertion_witness :
    ((⟨2, 4, [⟨-1, 1, 0, some 1, 0, some 32, 16, none, none, none, none⟩], 1⟩ :
        SpeciesState).species =
      (⟨-1, 1, 0, some 1, 0, some 32, 16, none, none, none, none⟩ : Specie) :: []) ∧
    append_specie (fun t => t)
        ⟨2, 4, [⟨-1, 1, 0, some 1, 0, some 32, 16, none, none, none, none⟩], 1⟩
        SpecieKind.proton ⟨none, none, none, none, none⟩ =
      .error "Specify temperature for all or none species" :=
  ⟨rfl, claim_C8_temperature_assertion (fun t => t)
    ⟨2, 4, [⟨-1, 1, 0, some 1, 0, some 32, 16, none, none, none, none⟩], 1⟩
    SpecieKind.proton ⟨none, none, none, none, none⟩
    ⟨-1, 1, 0, some 1, 0, some 32, 16, none, none, none, none⟩ [] 1 32
    rfl rfl rfl (by decide) (by decide) rfl⟩

/-- C8 as frozen is false on the code: with the reference species registered
without a temperature, registering a second species that does specify a
temperature succeeds (the temperature is silently ignored), although only
some of the registered species then specify a temperature. -/
theorem claim_C8_counterexample :
    (Except.bind (append_specie (fun t => t) ⟨2, 4, [], 1⟩ SpecieKind.electron
        ⟨none, none, none, none, some 32⟩)
      (fun st1 => append_specie (fun t => t) st1 SpecieKind.proton
        ⟨none, none, some 1, none, none⟩)).toOption.isSome = true := by decide

/-- C9 (amended): the zero-charge/zero-mass check happens at particle
construction — the `Particle.__init__` assertion admits a particle exactly
when both charge and mass are nonzero — not at species registration, which
performs no such check (see the counterexample: a zero-charge species
registers without error, before any particle of it exists). -/
theorem claim_C9_particle_assert (x v : Pt) (q m : ℚ) :
    (Particle.init x v q m).isSome = true ↔ (¬ q = 0 ∧ ¬ m = 0) := by
  unfold Particle.init
  by_cases h : q ≠ 0 ∧ m ≠ 0
  · rw [if_pos h]
    simpa using h
  · rw [if_neg h]
    simpa using h

/-- C9 as frozen is false on the code: registering a species with zero
charge (the pair (0, 1), after an electron reference) succeeds — no fatal
configuration error is raised at species registration time. -/
theorem claim_C9_counterexample :
    (Except.bind (append_specie (fun t => t) ⟨2, 4, [], 1⟩ SpecieKind.electron
        ⟨none, none, none, none, some 32⟩)
      (fun st1 => append_specie (fun t => t) st1 (SpecieKind.pair 0 1)
        ⟨none, none, none, none, none⟩)).toOption.isSome = true := by decide

/-! ### The snapshot round trip -/

theorem parse_particle_save (p : Particle) (hv : p.v.length = p.x.length) :
    parse_particle p.x.length (p.x ++ p.v ++ [p.q, p.m]) = p := by
  obtain ⟨px, pv, pq, pm⟩ := p
  simp only at hv
  unfold parse_particle
  have h1 : (px ++ pv ++ [pq, pm]).take px.length = px := by
    rw [List.append_assoc, List.take_left]
  have h2 : (px ++ pv ++ [pq, pm]).drop px.length = pv ++ [pq, pm] := by
    rw [List.append_assoc, List.drop_left]
  have h3 : (pv ++ [pq, pm]).take px.length = pv := by
    rw [← hv, List.take_left]
  have h4 : (px ++ pv ++ [pq, pm]).getD (2 * px.length) 0 = pq := by
    rw [List.getD_eq_getElem?_getD, List.getElem?_append_right
      (by rw [List.length_append, hv]; omega)]
    have : 2 * px.length - (px ++ pv).length = 0 := by
      rw [List.length_append, hv]; omega
    rw [this]
    rfl
  have h5 : (px ++ pv ++ [pq, pm]).getD (2 * px.length + 1) 0 = pm := by
    rw [List.getD_eq_getElem?_getD, List.getElem?_append_right
      (by rw [List.length_append, hv]; omega)]
    have : 2 * px.length + 1 - (px ++ pv).length = 1 := by
      rw [List.length_append, hv]; omega
    rw [this]
    rfl
  rw [h1, h2, h3, h4, h5]

theorem load_file_success (nDims : Nat) (locate : Pt → Int) :
    ∀ (lines : List (List ℚ)) (pop : List (List Particle)),
      (∀ ln ∈ lines, 0 ≤ locate (ln.take nDims) →
        ¬ ln.getD (2 * nDims) 0 = 0 ∧ ¬ ln.getD (2 * nDims + 1) 0 = 0) →
      ∃ pop1, load_file nDims locate lines pop = some pop1
  | [], pop, _ => ⟨pop, rfl⟩
  | nums :: rest, pop, h => by
    rw [load_file]
    by_cases hloc : 0 ≤ locate (nums.take nDims)
    · obtain ⟨hq, hm⟩ := h nums (List.mem_cons_self _ _) hloc
      have hinit : Particle.init (nums.take nDims) ((nums.drop nDims).take nDims)
          (nums.getD (2 * nDims) 0) (nums.getD (2 * nDims + 1) 0) =
          some ⟨nums.take nDims, (nums.drop nDims).take nDims,
            nums.getD (2 * nDims) 0, nums.getD (2 * nDims + 1) 0⟩ := by
        unfold Particle.init
        rw [if_pos ⟨hq, hm⟩]
      have hadd : add_particles locate pop [nums.take nDims] [(nums.drop nDims).take nDims]
          [nums.getD (2 * nDims) 0] [nums.getD (2 * nDims + 1) 0] =
          some (modifyIdx pop (locate (nums.take nDims)).toNat
            (fun c => c ++ [⟨nums.take nDims, (nums.drop nDims).take nDims,
              nums.getD (2 * nDims) 0, nums.getD (2 * nDims + 1) 0⟩])) := by
        rw [add_particles_singleton, add_particles_go, if_pos hloc, hinit]
        rfl
      rw [hadd]
      exact load_file_success nDims locate rest _
        (fun ln hln => h ln (List.mem_cons_of_mem _ hln))
    · have hadd : add_particles locate pop [nums.take nDims] [(nums.drop nDims).take nDims]
          [nums.getD (2 * nDims) 0] [nums.getD (2 * nDims + 1) 0] = some pop := by
        rw [add_particles_singleton, add_particles_go, if_neg hloc]
        rfl
      rw [hadd]
      exact load_file_success nDims locate rest pop
        (fun ln hln => h ln (List.mem_cons_of_mem _ hln))

theorem flatten_replicate_nil : ∀ (n : Nat),
    (List.replicate n ([] : List Particle)).flatten = []
  | 0 => rfl
  | n + 1 => by
    rw [List.replicate_succ, List.flatten_cons, List.nil_append]
    exact flatten_replicate_nil n

/-- C6: the save/load round trip.  Saving a population whose particles all
have d-dimensional positions and velocities (their charges and masses being
nonzero, as `Particle.__init__` guarantees) and loading the snapshot into an
empty population over a mesh in which every saved position is located
reproduces exactly the multiset of (position, velocity, charge, mass)
records — a `Particle` is precisely that tuple. -/
theorem claim_C6_roundtrip (pop : List (List Particle)) (n d : Nat) (locate : Pt → Int)
    (hdim : ∀ p ∈ pop.flatten, p.x.length = d ∧ p.v.length = d)
    (hqm : ∀ p ∈ pop.flatten, ¬ p.q = 0 ∧ ¬ p.m = 0)
    (hloc : ∀ p ∈ pop.flatten, 0 ≤ locate p.x)
    (hcod : ∀ x, locate x < (n : Int)) :
    ∃ pop1, load_file d locate (save_file pop) (List.replicate n []) = some pop1 ∧
      (↑pop1.flatten : Multiset Particle) = ↑pop.flatten := by
  have hline : ∀ ln ∈ save_file pop, ∃ p ∈ pop.flatten,
      ln = p.x ++ p.v ++ [p.q, p.m] := by
    intro ln hln
    obtain ⟨p, hp, hpe⟩ := List.mem_map.mp hln
    exact ⟨p, hp, hpe.symm⟩
  have htake : ∀ p ∈ pop.flatten, (p.x ++ p.v ++ [p.q, p.m]).take d = p.x := by
    intro p hp
    obtain ⟨hx, hv⟩ := hdim p hp
    have := congrArg Particle.x (parse_particle_save p (by rw [hx, hv]))
    rw [hx] at this
    exact this
  have hsucc : ∀ ln ∈ save_file pop, 0 ≤ locate (ln.take d) →
      ¬ ln.getD (2 * d) 0 = 0 ∧ ¬ ln.getD (2 * d + 1) 0 = 0 := by
    intro ln hln _
    obtain ⟨p, hp, rfl⟩ := hline ln hln
    obtain ⟨hx, hv⟩ := hdim p hp
    have hpar := parse_particle_save p (by rw [hx, hv])
    rw [hx] at hpar
    constructor
    · have hq2 : (p.x ++ p.v ++ [p.q, p.m]).getD (2 * d) 0 = p.q :=
        congrArg Particle.q hpar
      rw [hq2]
      exact (hqm p hp).1
    · have hm2 : (p.x ++ p.v ++ [p.q, p.m]).getD (2 * d + 1) 0 = p.m :=
        congrArg Particle.m hpar
      rw [hm2]
      exact (hqm p hp).2
  obtain ⟨pop1, hload⟩ := load_file_success d locate (save_file pop) (List.replicate n []) hsucc
  refine ⟨pop1, hload, ?_⟩
  have hspec := load_file_spec d locate (save_file pop) (List.replicate n []) pop1
    (fun x => by rw [List.length_replicate]; exact hcod x) hload
  rw [hspec.2.2, flatten_replicate_nil]
  have hfilter : (save_file pop).filter (fun ln => decide (0 ≤ locate (ln.take d))) =
      save_file pop := by
    refine List.filter_eq_self.mpr ?_
    intro ln hln
    obtain ⟨p, hp, rfl⟩ := hline ln hln
    rw [htake p hp]
    simpa using hloc p hp
  rw [hfilter]
  have hmap : (save_file pop).map (parse_particle d) = pop.flatten := by
    unfold save_file
    rw [List.map_map]
    have : ∀ p ∈ pop.flatten,
        (parse_particle d ∘ (fun q => q.x ++ q.v ++ [q.q, q.m])) p = id p := by
      intro p hp
      obtain ⟨hx, hv⟩ := hdim p hp
      show parse_particle d (p.x ++ p.v ++ [p.q, p.m]) = p
      rw [← hx]
      exact parse_particle_save p (by rw [hx, hv])
    rw [List.map_congr_left this, List.map_id]
  rw [hmap]
  simp

theorem claim_C6_roundtrip_witness :
    ∃ pop1, load_file 1 (fun _ => 0)
        (save_file [[⟨[1], [2], 3, 4⟩]]) (List.replicate 1 []) = some pop1 ∧
      (↑pop1.flatten : Multiset Particle) =
        ↑([[(⟨[1], [2], 3, 4⟩ : Particle)]] : List (List Particle)).flatten :=
  claim_C6_roundtrip [[⟨[1], [2], 3, 4⟩]] 1 1 (fun _ => 0)
    (by decide) (by decide) (by decide)
    (fun _ => by exact (by decide : (0 : Int) < 1))

/-- C10: `load_file` only adds particles: every cell's prior collection is a
prefix of its new collection, each line whose position locates in a cell
adds exactly one particle, and unlocated lines are silently dropped, so the
count grows by exactly the number of located lines. -/
theorem claim_C10_load_frame (nDims : Nat) (locate : Pt → Int)
    (lines : List (List ℚ)) (pop pop1 : List (List Particle))
    (hcod : ∀ x, locate x < (pop.length : Int))
    (h : load_file nDims locate lines pop = some pop1) :
    (∀ k, ∃ suf, pop1.getD k [] = pop.getD k [] ++ suf) ∧
      num_of_particles pop1 = num_of_particles pop +
        (lines.filter (fun ln => decide (0 ≤ locate (ln.take nDims)))).length := by
  have hspec := load_file_spec nDims locate lines pop pop1 hcod h
  refine ⟨hspec.2.1, ?_⟩
  have hcard := congrArg Multiset.card hspec.2.2
  rw [Multiset.card_add, Multiset.coe_card, Multiset.coe_card, Multiset.coe_card,
    List.length_map] at hcard
  rw [num_of_particles_card, num_of_particles_card, Multiset.coe_card, Multiset.coe_card]
  exact hcard

theorem claim_C10_load_frame_witness :
    (∀ k, ∃ suf,
        ([[(⟨[5], [6], 7, 8⟩ : Particle)]] : List (List Particle)).getD k [] =
          ([[]] : List (List Particle)).getD k [] ++ suf) ∧
      num_of_particles [[(⟨[5], [6], 7, 8⟩ : Particle)]] =
        num_of_particles ([[]] : List (List Particle)) +
          (([[5, 6, 7, 8]] : List (List ℚ)).filter
            (fun ln => decide (0 ≤ (fun _ => (0 : Int)) (ln.take 1)))).length :=
  claim_C10_load_frame 1 (fun _ => 0) [[5, 6, 7, 8]] [[]] [[⟨[5], [6], 7, 8⟩]]
    (fun _ => by exact (by decide : (0 : Int) < 1)) (by decide)

end PUNC
